import Mathlib

/-!
Verification development for the StoryShift demo knowledge-graph engine.

The TypeScript sources shallowly embedded here are:
* `src/lib/graphrag/api.ts` — the "Retrieved Facts" text parser
  (`parseRetrievedFacts`, `extractBlocks`, `parseSourcesMap`,
  `parseFactsBullets`, `parseEntity`, `makeNodeId`);
* `src/lib/graphrag/parse-structured-response.ts` — the response
  normalizer (`parseStructuredGraphRAGResponse`, `parseFactsPreviewGrouped`);
* `src/components/knowledge-graph.tsx` — `calculateDimensions`,
  `simulateForceLayout`, and the degree / filter computations of
  `KnowledgeGraphViewer`.

JavaScript strings are modelled as `List Char`.  JavaScript regular
expressions are modelled by explicit scanning functions that follow the
regex engine's leftmost-match and backtracking behaviour for the concrete
patterns appearing in the source.  JavaScript numbers are modelled as `ℚ`;
the `Math` primitives (`sqrt`, `cos`, `sin`, `PI`, `random`) are supplied
as parameters, since the layout claims hold for any implementation
satisfying the basic contracts stated in the theorems.
-/

namespace StoryShift

/-- JavaScript strings are modelled as lists of characters. -/
abbrev Str := List Char

/-- `Char.toLower`, modelling `String.prototype.toLowerCase` per character. -/
def lowerChar (c : Char) : Char := c.toLower

/-- Lowercase an entire string. -/
def lowerStr (s : Str) : Str := s.map lowerChar

/-- The regex whitespace class `\s` (restricted to the ASCII part that the
repository's inputs use). -/
def isWsChar (c : Char) : Bool :=
  c = ' ' || c = '\t' || c = '\n' || c = '\r' || c = Char.ofNat 11 || c = Char.ofNat 12

/-- JavaScript `String.prototype.trimStart`. -/
def trimStartStr (s : Str) : Str := s.dropWhile isWsChar

/-- JavaScript `String.prototype.trimEnd`. -/
def trimEndStr (s : Str) : Str := (s.reverse.dropWhile isWsChar).reverse

/-- JavaScript `String.prototype.trim`. -/
def trimStr (s : Str) : Str := trimEndStr (trimStartStr s)

/-- Length of the maximal leading whitespace run (what a greedy `\s*` consumes). -/
def wsRun : Str → Nat
  | [] => 0
  | c :: tl => if isWsChar c then wsRun tl + 1 else 0

/-- Case-insensitive prefix test (used for the `i`-flagged regex literals). -/
def isPrefixOfCI : Str → Str → Bool
  | [], _ => true
  | _ :: _, [] => false
  | a :: as, b :: bs => lowerChar a = lowerChar b && isPrefixOfCI as bs

/-- Index of the first (leftmost) case-insensitive occurrence of `pat`. -/
def findSubCI (pat : Str) : Str → Option Nat
  | [] => if pat.isEmpty then some 0 else none
  | c :: tl =>
      if isPrefixOfCI pat (c :: tl) then some 0
      else (findSubCI pat tl).map (· + 1)

/-- Case-sensitive prefix-based substring test modelling
`String.prototype.includes`. -/
def findSubCS (pat : Str) : Str → Option Nat
  | [] => if pat.isEmpty then some 0 else none
  | c :: tl =>
      if pat.isPrefixOf (c :: tl) then some 0
      else (findSubCS pat tl).map (· + 1)

/-- JavaScript `String.prototype.includes`. -/
def strIncludes (s pat : Str) : Bool := (findSubCS pat s).isSome

/-- Numeric value of a digit string, modelling `parseInt(·, 10)` on an
all-digit string. -/
def natOfDigits (s : Str) : Nat :=
  s.foldl (fun a c => a * 10 + (c.toNat - 48)) 0

/-- The greatest index `i ≤ pos` with `input[i] = '\n'`, modelling
`String.prototype.lastIndexOf('\n', pos)` (with the fromIndex already
clamped to be nonnegative, as JavaScript does). -/
def lastIdxNlLe (input : Str) (pos : Nat) : Option Nat :=
  let pre := input.take (pos + 1)
  match pre.reverse.findIdx? (· = '\n') with
  | some j => some (pre.length - 1 - j)
  | none => none

/-! ### Data model of `src/lib/graphrag/api.ts` -/

/-- `KGNode` from `api.ts`: a typed, labelled entity.  Attribute records
(JavaScript objects with insertion order) are modelled as association lists. -/
structure KGNode where
  id : Str
  type : Str
  label : Str
  url : Option Str := none
  page : Option Str := none
  attrs : Option (List (Str × Str)) := none
deriving Repr, DecidableEq, Inhabited

/-- `KGEdge` from `api.ts`. -/
structure KGEdge where
  id : Str
  source : Str
  target : Str
  label : Str
  sources : Option (List Str) := none
  sourceIndices : Option (List Nat) := none
deriving Repr, DecidableEq, Inhabited

/-- `ParsedFacts` from `api.ts`.  `sourceIndexToUrl` (a JavaScript object
keyed by numbers) is an insertion-ordered association list. -/
structure ParsedFacts where
  cleanText : Str
  nodes : List KGNode
  edges : List KGEdge
  types : List Str
  sourceIndexToUrl : List (Nat × Str)
  preamble : Option Str := none
deriving Repr, DecidableEq, Inhabited

/-- Insertion-ordered map update, modelling `Map.prototype.set` /
JavaScript object property assignment: overwrite in place, else append. -/
def amSet {κ β : Type} [DecidableEq κ] (m : List (κ × β)) (k : κ) (v : β) :
    List (κ × β) :=
  if m.any (fun p => p.1 = k) then
    m.map (fun p => if p.1 = k then (k, v) else p)
  else m ++ [(k, v)]

/-- Map lookup, modelling `Map.prototype.get` / object indexing. -/
def amGet {κ β : Type} [DecidableEq κ] (m : List (κ × β)) (k : κ) : Option β :=
  (m.find? (fun p => p.1 = k)).map (fun p => p.2)

/-- `FACTS_LABEL` in `api.ts`. -/
def FACTS_LABEL : Str := "Retrieved Facts:".toList

/-- `SOURCES_LABEL` in `api.ts`. -/
def SOURCES_LABEL : Str := "Sources:".toList

/-! ### `extractBlocks`

The facts regex is
`/Retrieved Facts:\s*([\s\S]*?)(?:\n\s*Sources:|Sources:|$)/i`.
The lazy capture group starts after the label and the greedy `\s*`, and ends
at the earliest position where one of the three delimiter alternatives
matches; `delimLenAt` decides whether a delimiter matches at a position and
returns its matched length (`\n\s*Sources:` is tried before `Sources:`,
matching the regex alternation order). -/

/-- Matched length of the delimiter alternation `\n\s*Sources:|Sources:` at
the head of `rest`, if it matches there. -/
def delimLenAt (rest : Str) : Option Nat :=
  match rest with
  | '\n' :: tl =>
      let r := wsRun tl
      if isPrefixOfCI SOURCES_LABEL (tl.drop r) then
        some (1 + r + SOURCES_LABEL.length)
      else if isPrefixOfCI SOURCES_LABEL rest then some SOURCES_LABEL.length
      else none
  | _ =>
      if isPrefixOfCI SOURCES_LABEL rest then some SOURCES_LABEL.length
      else none

/-- Scan for the earliest delimiter position from the start of the lazy
capture; returns `(captureLength, delimiterLength)`.  At end of input the
`$` alternative matches with length `0`. -/
def scanFacts : Str → Nat × Nat
  | [] => (0, 0)
  | c :: tl =>
      match delimLenAt (c :: tl) with
      | some d => (0, d)
      | none =>
          let p := scanFacts tl
          (p.1 + 1, p.2)

/-- Leftmost start of a match of `/\n?\s*Sources:[\s\S]*$/i` (used by the
sources-only clean-text branch): the first position from which skipping the
whitespace run reaches the label.  (A shorter whitespace split cannot match
because the label does not start with whitespace, so backtracking inside
`\n?\s*` collapses to this single check.) -/
def sourcesTailFrom : Str → Option Nat
  | [] => none
  | c :: tl =>
      if isPrefixOfCI SOURCES_LABEL ((c :: tl).drop (wsRun (c :: tl))) then some 0
      else (sourcesTailFrom tl).map (· + 1)

/-- Result record of `extractBlocks`. -/
structure Blocks where
  factsBlock : Option Str
  sourcesBlock : Option Str
  cleanText : Str
deriving Repr, DecidableEq

/-- `extractBlocks` from `api.ts`.  Notable faithful details:

* `afterFacts = input.slice(remainderAfterFactsIndex - factsMatch[1].length)`
  simplifies to the slice starting at `captureStart + delimiterLength`
  (the match end minus the capture length), which is what we compute;
* the clean text in the facts branch cuts at the start of the line holding
  the facts label; in the sources-only branch the first
  `\n?\s*Sources:[\s\S]*$` match is removed, and `trimEnd` is applied. -/
def extractBlocks (input : Str) : Blocks :=
  match findSubCI FACTS_LABEL input with
  | some p =>
      let afterLabel := input.drop (p + FACTS_LABEL.length)
      let ws := wsRun afterLabel
      let captureStart := p + FACTS_LABEL.length + ws
      let cap := scanFacts (input.drop captureStart)
      let factsBlock := trimStr ((input.drop captureStart).take cap.1)
      let afterFacts := input.drop (captureStart + cap.2)
      let sourcesBlock :=
        match findSubCI SOURCES_LABEL afterFacts with
        | some q => some (trimStr (afterFacts.drop (q + SOURCES_LABEL.length)))
        | none => none
      let start :=
        match lastIdxNlLe input (p - 1) with
        | some i => i + 1
        | none => 0
      let cleanText := trimEndStr (input.take start)
      { factsBlock := some factsBlock, sourcesBlock := sourcesBlock,
        cleanText := cleanText }
  | none =>
      let sourcesBlock :=
        match findSubCI SOURCES_LABEL input with
        | some q => some (trimStr (input.drop (q + SOURCES_LABEL.length)))
        | none => none
      let cleanText :=
        match sourcesBlock with
        | some sb =>
            if sb ≠ [] then
              trimEndStr
                (match sourcesTailFrom input with
                 | some i => input.take i
                 | none => input)
            else input
        | none => input
      { factsBlock := none, sourcesBlock := sourcesBlock, cleanText := cleanText }

/-! ### `parseSourcesMap` -/

/-- Length of the maximal leading digit run. -/
def digitRun : Str → Nat
  | [] => 0
  | c :: tl => if c.isDigit then digitRun tl + 1 else 0

/-- Match of `\[(\d+)\]\s*(\S+)` anchored at the head of `s`: returns
`(index, url, matchedLength)`. -/
def srcEntryAt (s : Str) : Option (Nat × Str × Nat) :=
  match s with
  | '[' :: tl =>
      let d := digitRun tl
      if d = 0 then none
      else
        match tl.drop d with
        | ']' :: rest =>
            let w := wsRun rest
            let u := (rest.drop w).takeWhile (fun c => ¬ isWsChar c)
            if u = [] then none
            else some (natOfDigits (tl.take d), u, 1 + d + 1 + w + u.length)
        | _ => none
  | _ => none

/-- Global scan for `/\[(\d+)\]\s*(\S+)/g` (fuelled by the string length;
every step consumes at least one character, so the fuel never runs out). -/
def srcEntriesAux : Nat → Str → List (Nat × Str)
  | 0, _ => []
  | _, [] => []
  | fuel + 1, c :: tl =>
      match srcEntryAt (c :: tl) with
      | some (i, u, len) => (i, u) :: srcEntriesAux fuel ((c :: tl).drop len)
      | none => srcEntriesAux fuel tl

/-- `parseSourcesMap` from `api.ts`: builds the index → URL map. -/
def parseSourcesMap (sourcesBlock : Option Str) : List (Nat × Str) :=
  match sourcesBlock with
  | none => []
  | some s =>
      (srcEntriesAux s.length s).foldl (fun m p => amSet m p.1 p.2) []

/-! ### `parseEntity` and the bullet triple grammar -/

/-- The regex word class `[A-Za-z0-9_]`. -/
def isWordChar (c : Char) : Bool := c.isAlpha || c.isDigit || c = '_'

/-- Match of `\b([A-Za-z0-9_]+):"([^"]+)"` anchored at the head of `s`,
where `prev` is the character before `s` (for the `\b` word boundary).
Returns `(key, value, matchedLength)`. -/
def typeLabelAt (prev : Option Char) (s : Str) : Option (Str × Str × Nat) :=
  if (match prev with | some c => isWordChar c | none => false) then none
  else
    let w := s.takeWhile isWordChar
    if w = [] then none
    else
      match s.drop w.length with
      | ':' :: '"' :: r =>
          let v := r.takeWhile (fun c => c ≠ '"')
          if v = [] then none
          else
            match r.drop v.length with
            | '"' :: _ => some (w, v, w.length + 2 + v.length + 1)
            | _ => none
      | _ => none

/-- Leftmost match of `\b([A-Za-z0-9_]+):"([^"]+)"` (the primary
type/label pair of `parseEntity`). -/
def findTypeLabel : Option Char → Str → Option (Str × Str)
  | _, [] => none
  | prev, c :: tl =>
      match typeLabelAt prev (c :: tl) with
      | some (k, v, _) => some (k, v)
      | none => findTypeLabel (some c) tl

/-- Match of `\b([A-Za-z0-9_]+)=([^\s)]+)` anchored at the head of `s`. -/
def keyValueAt (prev : Option Char) (s : Str) : Option (Str × Str × Nat) :=
  if (match prev with | some c => isWordChar c | none => false) then none
  else
    let w := s.takeWhile isWordChar
    if w = [] then none
    else
      match s.drop w.length with
      | '=' :: r =>
          let v := r.takeWhile (fun c => ¬ (isWsChar c || c = ')'))
          if v = [] then none
          else some (w, v, w.length + 1 + v.length)
      | _ => none

/-- Global scan for `/\b([A-Za-z0-9_]+)=([^\s)]+)/g` (fuelled; the scanner
jumps past each match like the regex engine's `lastIndex`, carrying the
character preceding the next scan position for `\b`). -/
def scanKeyValues : Nat → Option Char → Str → List (Str × Str)
  | 0, _, _ => []
  | _, _, [] => []
  | fuel + 1, prev, c :: tl =>
      match keyValueAt prev (c :: tl) with
      | some (k, v, len) =>
          (k, v) :: scanKeyValues fuel ((c :: tl).take len).getLast?
            ((c :: tl).drop len)
      | none => scanKeyValues fuel (some c) tl

/-- Global scan for `/\b([A-Za-z0-9_]+):"([^"]+)"/g`. -/
def scanQuotedPairs : Nat → Option Char → Str → List (Str × Str)
  | 0, _, _ => []
  | _, _, [] => []
  | fuel + 1, prev, c :: tl =>
      match typeLabelAt prev (c :: tl) with
      | some (k, v, len) =>
          (k, v) :: scanQuotedPairs fuel ((c :: tl).take len).getLast?
            ((c :: tl).drop len)
      | none => scanQuotedPairs fuel (some c) tl

/-- `makeNodeId` from `api.ts`: `` `${type}:${label}` ``. -/
def makeNodeId (typeName label : Str) : Str := typeName ++ ':' :: label

/-- `parseEntity` from `api.ts`: the primary `type:"label"` pair plus
`key=value` attributes and further quoted pairs (the pair equal to the
primary one is skipped). -/
def parseEntity (raw : Str) : Option KGNode :=
  let tl0 := findTypeLabel none raw
  let typeName := match tl0 with | some p => p.1 | none => []
  let label := match tl0 with | some p => p.2 | none => []
  let attrs1 := (scanKeyValues raw.length none raw).foldl
    (fun m p => amSet m p.1 p.2) []
  let attrs := (scanQuotedPairs raw.length none raw).foldl
    (fun m p => if p.1 = typeName ∧ p.2 = label then m else amSet m p.1 p.2)
    attrs1
  if typeName = [] ∨ label = [] then none
  else
    some { id := makeNodeId typeName label, type := typeName, label := label,
           url := amGet attrs "url".toList, page := amGet attrs "page".toList,
           attrs := if attrs = [] then none else some attrs }

/-- Match of the triple regex
`\(([^)]+)\)\s*-\[([^\]]+)\]->\s*\(([^)]+)\)` anchored at the head of `s`.
Each greedy character class runs to its closing delimiter, so matching at a
position is deterministic. -/
def tripleAt (s : Str) : Option (Str × Str × Str) :=
  match s with
  | '(' :: tl =>
      let a := tl.takeWhile (fun c => c ≠ ')')
      if a = [] then none
      else
        match tl.drop a.length with
        | ')' :: r1 =>
            let w1 := wsRun r1
            match r1.drop w1 with
            | '-' :: '[' :: r2 =>
                let rel := r2.takeWhile (fun c => c ≠ ']')
                if rel = [] then none
                else
                  match r2.drop rel.length with
                  | ']' :: '-' :: '>' :: r3 =>
                      let w2 := wsRun r3
                      match r3.drop w2 with
                      | '(' :: r4 =>
                          let b := r4.takeWhile (fun c => c ≠ ')')
                          if b = [] then none
                          else
                            match r4.drop b.length with
                            | ')' :: _ => some (a, rel, b)
                            | _ => none
                      | _ => none
                  | _ => none
            | _ => none
        | _ => none
  | _ => none

/-- Leftmost match of the triple regex. -/
def findTriple : Str → Option (Str × Str × Str)
  | [] => none
  | c :: tl =>
      match tripleAt (c :: tl) with
      | some t => some t
      | none => findTriple tl

/-- Match of `\[(\d+)\]` anchored at the head of `s`; returns the matched
text and its length. -/
def bracketNumAt (s : Str) : Option (Str × Nat) :=
  match s with
  | '[' :: tl =>
      let d := digitRun tl
      if d = 0 then none
      else
        match tl.drop d with
        | ']' :: _ => some ('[' :: tl.take d ++ [']'], d + 2)
        | _ => none
  | _ => none

/-- Global scan for `/\[(\d+)\]/g`: the list of matched texts
(`item.match(...)`). -/
def bracketNumMatches : Nat → Str → List Str
  | 0, _ => []
  | _, [] => []
  | fuel + 1, c :: tl =>
      match bracketNumAt (c :: tl) with
      | some (m, len) => m :: bracketNumMatches fuel ((c :: tl).drop len)
      | none => bracketNumMatches fuel tl

/-- Prepend a character to the first chunk of a split result. -/
def splitBulCons (c : Char) (r : List Str) : List Str :=
  match r with
  | [] => [[c]]
  | h :: t => (c :: h) :: t

/-- Split a string at every `'•'`, modelling `String.prototype.split(/•/g)`. -/
def splitBul : Str → List Str
  | [] => [[]]
  | c :: tl =>
      if c = '•' then [] :: splitBul tl
      else splitBulCons c (splitBul tl)

/-- The bullet items of a facts block: split at `'•'`, trim, drop empties. -/
def splitBullets (s : Str) : List Str :=
  ((splitBul s).map trimStr).filter (fun i => i ≠ [])

/-- Decimal digits of a natural number (for the synthetic edge ids
`` `e_${edgeCounter++}` ``). -/
def natDigits (n : Nat) : Str := (toString n).toList

/-- Global replace `m.replace(/[\\[\\]]/g, '')` from `parseFactsBullets`
(api.ts line 328). In the regex literal `/[\\[\\]]/`, `\\` is an escaped
backslash, so the character class closes at the first unescaped `]`: the
pattern is (`\` or `[`) followed by a literal `]`, and each such
two-character match is removed. It never occurs in a `[digits]` token,
where this replace is the identity. -/
def stripBrokenClass : Str → Str
  | [] => []
  | [c] => [c]
  | c :: d :: tl =>
      if (c = '\\' || c = '[') && d = ']' then stripBrokenClass tl
      else c :: stripBrokenClass (d :: tl)

/-- `parseInt(s, 10)`: skip leading whitespace, take an optional sign and
the leading run of decimal digits; `none` models `NaN` (no digits). -/
def parseIntJS (s : Str) : Option Int :=
  match s.dropWhile isWsChar with
  | '-' :: r =>
      let d := r.takeWhile Char.isDigit
      if d = [] then none else some (-(natOfDigits d : Int))
  | '+' :: r =>
      let d := r.takeWhile Char.isDigit
      if d = [] then none else some ((natOfDigits d : Int))
  | r =>
      let d := r.takeWhile Char.isDigit
      if d = [] then none else some ((natOfDigits d : Int))

/-- `sourceIndexToUrl.get(idx)` applied to a `parseInt` result: the map's
keys are the naturals set by `parseSourcesMap`, so a `NaN` (`none`) or a
negative index finds no entry. -/
def amGetIdx (m : List (Nat × Str)) : Option Int → Option Str
  | none => none
  | some i => if i < 0 then none else amGet m i.toNat

/-- Accumulator of the `parseFactsBullets` loop. -/
structure FactsAcc where
  nodesById : List (Str × KGNode)
  edges : List KGEdge
  edgeCounter : Nat
deriving Repr, DecidableEq

/-- One iteration of the `parseFactsBullets` loop over a bullet item. -/
def processItem (sourceIndexToUrl : List (Nat × Str)) (acc : FactsAcc)
    (item : Str) : FactsAcc :=
  let sourceIdxMatches := bracketNumMatches item.length item
  let edgeSources :=
    (sourceIdxMatches.map (fun m =>
      amGetIdx sourceIndexToUrl (parseIntJS (stripBrokenClass m)))).filterMap
      (fun o => match o with
        | some u => if u = [] then none else some u
        | none => none)
  let edgeSourceIndices :=
    sourceIdxMatches.map (fun m => natOfDigits (m.filter Char.isDigit))
  match findTriple item with
  | none => acc
  | some (leftRaw, relation, rightRaw) =>
      match parseEntity leftRaw, parseEntity rightRaw with
      | some left, some right =>
          let leftId := makeNodeId left.type left.label
          let rightId := makeNodeId right.type right.label
          let n1 :=
            if acc.nodesById.any (fun p => p.1 = leftId) then acc.nodesById
            else acc.nodesById ++ [(leftId, left)]
          let n2 :=
            if n1.any (fun p => p.1 = rightId) then n1
            else n1 ++ [(rightId, right)]
          let edge : KGEdge :=
            { id := 'e' :: '_' :: natDigits acc.edgeCounter,
              source := leftId, target := rightId, label := trimStr relation,
              sources := if edgeSources ≠ [] then some edgeSources else none,
              sourceIndices :=
                if edgeSourceIndices ≠ [] then some edgeSourceIndices else none }
          { nodesById := n2, edges := acc.edges ++ [edge],
            edgeCounter := acc.edgeCounter + 1 }
      | _, _ => acc

/-- `parseFactsBullets` from `api.ts`: fold the items, return the node map's
values (insertion order) and the edges. -/
def parseFactsBullets (factsBlock : Str) (sourceIndexToUrl : List (Nat × Str)) :
    List KGNode × List KGEdge :=
  let acc := (splitBullets factsBlock).foldl (processItem sourceIndexToUrl)
    { nodesById := [], edges := [], edgeCounter := 0 }
  (acc.nodesById.map (fun p => p.2), acc.edges)

/-! ### `parseRetrievedFacts` -/

/-- Label of the preamble marker regex `/(?:^|\n)Chat Response:\s*/i`. -/
def CHAT_RESPONSE_LABEL : Str := "Chat Response:".toList

/-- Match length of `(?:^|\n)Chat Response:\s*` at the head of `s`
(`atStart` is true only at absolute position 0, where the `^` alternative
is available). -/
def chatRespMatchAt (atStart : Bool) (s : Str) : Option Nat :=
  if atStart && isPrefixOfCI CHAT_RESPONSE_LABEL s then
    some (CHAT_RESPONSE_LABEL.length +
      wsRun (s.drop CHAT_RESPONSE_LABEL.length))
  else
    match s with
    | '\n' :: tl =>
        if isPrefixOfCI CHAT_RESPONSE_LABEL tl then
          some (1 + CHAT_RESPONSE_LABEL.length +
            wsRun (tl.drop CHAT_RESPONSE_LABEL.length))
        else none
    | _ => none

/-- Leftmost match of the preamble marker regex: `(index, matchLength)`. -/
def findChatRespAux : Bool → Nat → Str → Option (Nat × Nat)
  | _, _, [] => none
  | atStart, i, c :: tl =>
      match chatRespMatchAt atStart (c :: tl) with
      | some len => some (i, len)
      | none => findChatRespAux false (i + 1) tl

/-- Leftmost match of `/(?:^|\n)Chat Response:\s*/i` in `input`. -/
def findChatResp (input : Str) : Option (Nat × Nat) :=
  findChatRespAux true 0 input

/-- Insertion-order deduplication (JavaScript `new Set(...)`). -/
def dedupFirst (l : List Str) : List Str :=
  l.foldl (fun acc t => if acc.contains t then acc else acc ++ [t]) []

/-- Lexicographic comparison of strings by character codes (the default
`Array.prototype.sort` comparison for these code-unit strings). -/
def strLe : Str → Str → Bool
  | [], _ => true
  | _ :: _, [] => false
  | a :: as, b :: bs =>
      if a.toNat < b.toNat then true
      else if a.toNat = b.toNat then strLe as bs
      else false

/-- Insertion into a sorted list (for `Array.prototype.sort`). -/
def insertSorted (x : Str) : List Str → List Str
  | [] => [x]
  | y :: ys => if strLe x y then x :: y :: ys else y :: insertSorted x ys

/-- Insertion sort of strings. -/
def sortStrs (l : List Str) : List Str := l.foldr insertSorted []

/-- The preamble preceding the `Chat Response:` marker (trimmed), when the
marker is present. -/
def chatPreamble (input : Str) : Option Str :=
  match findChatResp input with
  | some p => some (trimStr (input.take p.1))
  | none => none

/-- The working text for fact extraction: everything after the
`Chat Response:` marker match, or the whole input when absent. -/
def chatContent (input : Str) : Str :=
  match findChatResp input with
  | some p => input.drop (p.1 + p.2)
  | none => input

/-- `parseRetrievedFacts` from `api.ts`: the main parser entry point. -/
def parseRetrievedFacts (input : Str) : Option ParsedFacts :=
  if input = [] then none
  else
    let preamble : Option Str := chatPreamble input
    let b := extractBlocks (chatContent input)
    let sourceIndexToUrlMap := parseSourcesMap b.sourcesBlock
    let parsed :=
      match b.factsBlock with
      | some fb =>
          if fb = [] then ([], []) else parseFactsBullets fb sourceIndexToUrlMap
      | none => ([], [])
    let types := sortStrs (dedupFirst (parsed.1.map (fun n => n.type)))
    let hasFactsOrSources : Bool :=
      (match b.factsBlock with | some fb => !fb.isEmpty | none => false) ||
      (match b.sourcesBlock with | some sb => !sb.isEmpty | none => false)
    if (match preamble with | some p => p.isEmpty | none => true) &&
        !hasFactsOrSources then none
    else
      some { cleanText := b.cleanText, nodes := parsed.1, edges := parsed.2,
             types := types, sourceIndexToUrl := sourceIndexToUrlMap,
             preamble := preamble }

/-! ### `src/lib/graphrag/parse-structured-response.ts` -/

/-- A research finding (`{title?, url, snippet}`). -/
structure Finding where
  title : Option Str := none
  url : Str
  snippet : Str
deriving Repr, DecidableEq

/-- The `Research` field of a structured response. -/
structure ResearchData where
  targets : List Str
  findings : List Finding
deriving Repr, DecidableEq

/-- A suggested action (`{action, description}`). -/
structure SuggestedAction where
  action : Str
  description : Str
deriving Repr, DecidableEq

/-- `StructuredResponse` from `api.ts`. -/
structure StructuredResponse where
  Research : ResearchData
  Chat_Response : Str
  Suggested_Actions : List SuggestedAction
deriving Repr, DecidableEq

/-- `StructuredParsedResponse` from `parse-structured-response.ts`. -/
structure StructuredParsedResponse where
  chatResponse : Str
  researchTargets : List Str
  researchFindings : List Finding
  suggestedActions : List SuggestedAction
  nodes : List KGNode
  edges : List KGEdge
  types : List Str
  sourceIndexToUrl : List (Nat × Str)
  preamble : Option Str
  hasStructuredData : Bool
deriving Repr, DecidableEq

/-- Leftmost match of the grouped entity regex
`\(\s*([A-Za-z0-9_]+)\s*:\s*"([^"]+)"[^)]*\)`, anchored at the head. -/
def groupedEntityAt (s : Str) : Option (Str × Str) :=
  match s with
  | '(' :: tl =>
      let w0 := wsRun tl
      let r0 := tl.drop w0
      let t := r0.takeWhile isWordChar
      if t = [] then none
      else
        let r1 := r0.drop t.length
        let w1 := wsRun r1
        match r1.drop w1 with
        | ':' :: r2 =>
            let w2 := wsRun r2
            match r2.drop w2 with
            | '"' :: r3 =>
                let v := r3.takeWhile (fun c => c ≠ '"')
                if v = [] then none
                else
                  match r3.drop v.length with
                  | '"' :: r4 =>
                      let junk := r4.takeWhile (fun c => c ≠ ')')
                      match r4.drop junk.length with
                      | ')' :: _ => some (t, v)
                      | _ => none
                  | _ => none
            | _ => none
        | _ => none
  | _ => none

/-- Leftmost match of the grouped entity regex anywhere in the string. -/
def findGroupedEntity : Str → Option (Str × Str)
  | [] => none
  | c :: tl =>
      match groupedEntityAt (c :: tl) with
      | some p => some p
      | none => findGroupedEntity tl

/-- The inner `parseEntity` closure of `parseFactsPreviewGrouped`: parses a
`(type:"label" ...)` span, registering the node in the shared map (the
existing node is returned when the id is already present). -/
def groupedParseEntity (m : List (Str × KGNode)) (raw : Str) :
    Option KGNode × List (Str × KGNode) :=
  match findGroupedEntity raw with
  | none => (none, m)
  | some (t, l) =>
      let id := makeNodeId t l
      match amGet m id with
      | some n => (some n, m)
      | none =>
          let n : KGNode := { id := id, type := t, label := l }
          (some n, m ++ [(id, n)])

/-- `extractSourceIndices` of `parseFactsPreviewGrouped`. -/
def extractSourceIndices (s : Str) : List Nat :=
  (bracketNumMatches s.length s).map (fun m => natOfDigits (m.filter Char.isDigit))

/-- Match of the outward-relation regex `^-+\s*\[([^\]]+)\]->\s*\(([^)]+)\)`. -/
def outwardAt (s : Str) : Option (Str × Str) :=
  match s with
  | '-' :: tl =>
      let d := tl.takeWhile (fun c => c = '-')
      let r0 := tl.drop d.length
      let w0 := wsRun r0
      match r0.drop w0 with
      | '[' :: r1 =>
          let rel := r1.takeWhile (fun c => c ≠ ']')
          if rel = [] then none
          else
            match r1.drop rel.length with
            | ']' :: '-' :: '>' :: r2 =>
                let w1 := wsRun r2
                match r2.drop w1 with
                | '(' :: r3 =>
                    let ent := r3.takeWhile (fun c => c ≠ ')')
                    if ent = [] then none
                    else
                      match r3.drop ent.length with
                      | ')' :: _ => some (rel, ent)
                      | _ => none
                | _ => none
            | _ => none
      | _ => none
  | _ => none

/-- Match of the inward-relation regex `^<-\s*\[([^\]]+)\]-\s*\(([^)]+)\)`. -/
def inwardAt (s : Str) : Option (Str × Str) :=
  match s with
  | '<' :: '-' :: r0 =>
      let w0 := wsRun r0
      match r0.drop w0 with
      | '[' :: r1 =>
          let rel := r1.takeWhile (fun c => c ≠ ']')
          if rel = [] then none
          else
            match r1.drop rel.length with
            | ']' :: '-' :: r2 =>
                let w1 := wsRun r2
                match r2.drop w1 with
                | '(' :: r3 =>
                    let ent := r3.takeWhile (fun c => c ≠ ')')
                    if ent = [] then none
                    else
                      match r3.drop ent.length with
                      | ')' :: _ => some (rel, ent)
                      | _ => none
                | _ => none
            | _ => none
      | _ => none
  | _ => none

/-- Loop state of `parseFactsPreviewGrouped`. -/
structure GroupedAcc where
  nodesById : List (Str × KGNode)
  edges : List KGEdge
  edgeCounter : Nat
  currentCentral : Option KGNode
deriving Repr, DecidableEq

/-- One iteration of the `parseFactsPreviewGrouped` line loop. -/
def groupedStep (sourceIndexToUrl : List (Nat × Str)) (acc : GroupedAcc)
    (rawLine : Str) : GroupedAcc :=
  let line := trimStr rawLine
  if line = [] then acc
  else if line.head? = some '(' then
    let r := groupedParseEntity acc.nodesById line
    let central :=
      match r.1 with | some n => some n | none => acc.currentCentral
    { acc with nodesById := r.2, currentCentral := central }
  else
    match findTriple line with
    | some (t1, rel, t3) =>
        let rl := groupedParseEntity acc.nodesById ('(' :: t1 ++ [')'])
        let rr := groupedParseEntity rl.2 ('(' :: t3 ++ [')'])
        (match rl.1, rr.1 with
         | some left, some right =>
             let idxs := extractSourceIndices line
             let urls := (idxs.map (fun i => amGet sourceIndexToUrl i)).filterMap
               (fun o => match o with
                 | some u => if u = [] then none else some u
                 | none => none)
             let edge : KGEdge :=
               { id := 'e' :: '_' :: natDigits acc.edgeCounter,
                 source := left.id, target := right.id, label := trimStr rel,
                 sources :=
                   if idxs ≠ [] ∧ urls ≠ [] then some urls else none,
                 sourceIndices := if idxs ≠ [] then some idxs else none }
             { acc with
               nodesById := rr.2, edges := acc.edges ++ [edge],
               edgeCounter := acc.edgeCounter + 1 }
         | _, _ => { acc with nodesById := rr.2 })
    | none =>
        match outwardAt line, acc.currentCentral with
        | some (rel, entRaw), some central =>
            let r := groupedParseEntity acc.nodesById ('(' :: entRaw ++ [')'])
            (match r.1 with
             | some right =>
                 let idxs := extractSourceIndices line
                 let urls := (idxs.map (fun i => amGet sourceIndexToUrl i)).filterMap
                   (fun o => match o with
                     | some u => if u = [] then none else some u
                     | none => none)
                 let edge : KGEdge :=
                   { id := 'e' :: '_' :: natDigits acc.edgeCounter,
                     source := central.id, target := right.id,
                     label := trimStr rel,
                     sources :=
                       if idxs ≠ [] ∧ urls ≠ [] then some urls else none,
                     sourceIndices := if idxs ≠ [] then some idxs else none }
                 { acc with
                   nodesById := r.2, edges := acc.edges ++ [edge],
                   edgeCounter := acc.edgeCounter + 1 }
             | none => { acc with nodesById := r.2 })
        | _, _ =>
            match inwardAt line, acc.currentCentral with
            | some (rel, entRaw), some central =>
                let r := groupedParseEntity acc.nodesById ('(' :: entRaw ++ [')'])
                (match r.1 with
                 | some left =>
                     let idxs := extractSourceIndices line
                     let urls := (idxs.map (fun i => amGet sourceIndexToUrl i)).filterMap
                       (fun o => match o with
                         | some u => if u = [] then none else some u
                         | none => none)
                     let edge : KGEdge :=
                       { id := 'e' :: '_' :: natDigits acc.edgeCounter,
                         source := left.id, target := central.id,
                         label := trimStr rel,
                         sources :=
                           if idxs ≠ [] ∧ urls ≠ [] then some urls else none,
                         sourceIndices := if idxs ≠ [] then some idxs else none }
                     { acc with
                       nodesById := r.2, edges := acc.edges ++ [edge],
                       edgeCounter := acc.edgeCounter + 1 }
                 | none => { acc with nodesById := r.2 })
            | _, _ => acc

/-- `parseFactsPreviewGrouped` from `parse-structured-response.ts`. -/
def parseFactsPreviewGrouped (lines : List Str)
    (sourceIndexToUrl : List (Nat × Str)) :
    List KGNode × List KGEdge × List Str :=
  let acc := lines.foldl (groupedStep sourceIndexToUrl)
    { nodesById := [], edges := [], edgeCounter := 0, currentCentral := none }
  let nodes := acc.nodesById.map (fun p => p.2)
  (nodes, acc.edges, sortStrs (dedupFirst (nodes.map (fun n => n.type))))

/-- `Array.prototype.join('\n')` on the facts-preview lines. -/
def nlJoin (lines : List Str) : Str :=
  match lines with
  | [] => []
  | [l] => l
  | l :: rest => l ++ '\n' :: nlJoin rest

/-- `parseStructuredGraphRAGResponse` from `parse-structured-response.ts`.
The `kgData?.cleanText || Chat_Response` fallback (empty clean text falls
back to the original answer) is modelled by the inner conditionals. -/
def parseStructuredGraphRAGResponse (structuredResponse : StructuredResponse)
    (sources : List (Nat × Str)) (factsPreview : Option (List Str)) :
    StructuredParsedResponse :=
  let sourceIndexToUrl := sources.foldl (fun m p => amSet m p.1 p.2) []
  let base : StructuredParsedResponse :=
    { chatResponse := structuredResponse.Chat_Response,
      researchTargets := structuredResponse.Research.targets,
      researchFindings := structuredResponse.Research.findings,
      suggestedActions := structuredResponse.Suggested_Actions,
      nodes := [], edges := [], types := [],
      sourceIndexToUrl := sourceIndexToUrl, preamble := none,
      hasStructuredData := true }
  let kg0 :=
    if structuredResponse.Chat_Response ≠ [] then
      parseRetrievedFacts structuredResponse.Chat_Response
    else none
  match kg0 with
  | some kg =>
      { base with
        chatResponse :=
          if kg.cleanText ≠ [] then kg.cleanText
          else structuredResponse.Chat_Response,
        nodes := kg.nodes, edges := kg.edges, types := kg.types,
        preamble := kg.preamble }
  | none =>
      match factsPreview with
      | some fp =>
          if fp ≠ [] then
            match parseRetrievedFacts (nlJoin fp) with
            | some kg =>
                { base with
                  chatResponse :=
                    if kg.cleanText ≠ [] then kg.cleanText
                    else structuredResponse.Chat_Response,
                  nodes := kg.nodes, edges := kg.edges, types := kg.types,
                  preamble := kg.preamble }
            | none =>
                let g := parseFactsPreviewGrouped fp sourceIndexToUrl
                { base with nodes := g.1, edges := g.2.1, types := g.2.2 }
          else base
      | none => base

/-! ### `src/components/knowledge-graph.tsx`

JavaScript numbers are modelled as `ℚ`.  The `Math` primitives used by the
component (`sqrt`, `cos`, `sin`, `PI`, and the `random` stream) are passed
in as a parameter record so the layout theorems quantify over any
implementation satisfying the stated contracts. -/

/-- The `Math` primitives consumed by the layout code.  `rand n` is the
value of the `n`-th call to `Math.random()` during one layout run. -/
structure MathPrims where
  sqrtQ : ℚ → ℚ
  cosQ : ℚ → ℚ
  sinQ : ℚ → ℚ
  piQ : ℚ
  rand : ℕ → ℚ

/-- Result of `calculateDimensions`. -/
structure Dimensions where
  nodeW : ℚ
  nodeH : ℚ
  canvasSize : ℚ
deriving DecidableEq, Repr

/-- `calculateDimensions` from `knowledge-graph.tsx`. -/
def calculateDimensions (sqrtQ : ℚ → ℚ) (nodeCount : ℕ) : Dimensions :=
  let baseNodeW : ℚ := 120
  let baseNodeH : ℚ := 32
  let scaleFactor : ℚ :=
    if nodeCount > 50 then max (7/10) (1 - ((nodeCount : ℚ) - 50) / 200) else 1
  let nodeW := max 80 (baseNodeW * scaleFactor)
  let nodeH := max 24 (baseNodeH * scaleFactor)
  let baseSize : ℚ := 800
  let sizeMultiplier := sqrtQ ((nodeCount : ℚ) / 10)
  let canvasSize := max baseSize (baseSize * sizeMultiplier)
  { nodeW := nodeW, nodeH := nodeH, canvasSize := canvasSize }

/-- One simulated node position (the mutable objects of the `positions`
array in `simulateForceLayout`). -/
structure PosState where
  id : Str
  x : ℚ
  y : ℚ
  vx : ℚ
  vy : ℚ
deriving DecidableEq, Repr

instance : Inhabited PosState := ⟨⟨[], 0, 0, 0, 0⟩⟩

/-- Element read of the positions array (used only at indices produced by
valid lookups). -/
def getP (l : List PosState) (i : ℕ) : PosState := l.getD i default

/-- In-place update of one array slot. -/
def updAt (l : List PosState) (i : ℕ) (f : PosState → PosState) :
    List PosState :=
  l.enum.map (fun p => if p.1 = i then f p.2 else p.2)

/-- Index the JavaScript `Map` built by
`new Map(positions.map(p => [p.id, p]))` resolves an id to: the last
element with that id (later entries overwrite earlier ones). -/
def lastIdxOf (l : List PosState) (id : Str) : Option ℕ :=
  match (l.enum.filter (fun p => p.2.id = id)).getLast? with
  | some p => some p.1
  | none => none

/-- Initial node placement of `simulateForceLayout`: per-type anchors on a
circle around the centre plus random jitter (`rand (2*i)` and
`rand (2*i+1)` are the two `Math.random()` calls of node `i`). -/
def initPositions (P : MathPrims) (nodes : List KGNode) (dims : Dimensions) :
    List PosState :=
  let center := dims.canvasSize / 2
  let types := dedupFirst (nodes.map (fun n => n.type))
  let typeAngle := fun (i : ℕ) => ((i : ℚ) / (types.length : ℚ)) * 2 * P.piQ
  let clusterRadius := min (dims.canvasSize * (2/10)) 120
  nodes.enum.map (fun p =>
    let i := p.1
    let node := p.2
    let tp :=
      match types.indexOf? node.type with
      | some ti =>
          (center + P.cosQ (typeAngle ti) * clusterRadius,
           center + P.sinQ (typeAngle ti) * clusterRadius)
      | none => (center, center)
    { id := node.id,
      x := tp.1 + (P.rand (2 * i) - 1/2) * 80,
      y := tp.2 + (P.rand (2 * i + 1) - 1/2) * 80,
      vx := 0, vy := 0 })

/-- Repulsion contribution of the ordered pair `(i, j)` (inner body of the
double loop). -/
def repulsePair (P : MathPrims) (nodeW alpha : ℚ) (l : List PosState)
    (ij : ℕ × ℕ) : List PosState :=
  let a := getP l ij.1
  let b := getP l ij.2
  let dx := a.x - b.x
  let dy := a.y - b.y
  let distance := max 1 (P.sqrtQ (dx * dx + dy * dy))
  let repulsion := (nodeW * 4) / max distance (nodeW * (8/10))
  let fx := (dx / distance) * repulsion * alpha
  let fy := (dy / distance) * repulsion * alpha
  let l1 := updAt l ij.1 (fun p => { p with vx := p.vx + fx, vy := p.vy + fy })
  updAt l1 ij.2 (fun p => { p with vx := p.vx - fx, vy := p.vy - fy })

/-- All ordered pairs `i < j` of the double repulsion loop, in loop order. -/
def pairList (n : ℕ) : List (ℕ × ℕ) :=
  (List.range n).flatMap (fun i =>
    ((List.range n).filter (fun j => i < j)).map (fun j => (i, j)))

/-- Attraction contribution of one edge (the `edges.forEach` body). -/
def attractEdge (P : MathPrims) (nodeW alpha : ℚ) (l : List PosState)
    (e : KGEdge) : List PosState :=
  match lastIdxOf l e.source, lastIdxOf l e.target with
  | some si, some ti =>
      let source := getP l si
      let target := getP l ti
      let dx := target.x - source.x
      let dy := target.y - source.y
      let d0 := P.sqrtQ (dx * dx + dy * dy)
      let distance := if d0 = 0 then 1 else d0
      let idealDistance := nodeW * (5/2)
      let attraction := (distance - idealDistance) * (1/100) * alpha
      let fx := (dx / distance) * attraction
      let fy := (dy / distance) * attraction
      let l1 := updAt l si (fun p => { p with vx := p.vx + fx, vy := p.vy + fy })
      updAt l1 ti (fun p => { p with vx := p.vx - fx, vy := p.vy - fy })
  | _, _ => l

/-- Centre-pull contribution for one node. -/
def centerStep (P : MathPrims) (canvasSize center alpha : ℚ) (p : PosState) :
    PosState :=
  let dx := center - p.x
  let dy := center - p.y
  let distanceFromCenter := P.sqrtQ (dx * dx + dy * dy)
  let centerForce :=
    min (distanceFromCenter / (canvasSize * (35/100))) 1 * (8/1000) * alpha
  { p with vx := p.vx + dx * centerForce, vy := p.vy + dy * centerForce }

/-- Damping, integration, soft circular boundary and hard clamp for one
node (the final `positions.forEach` body of an iteration). -/
def integrateStep (P : MathPrims) (center radius softBoundaryStart alpha : ℚ)
    (p : PosState) : PosState :=
  let vx := p.vx * (85/100)
  let vy := p.vy * (85/100)
  let x := p.x + vx
  let y := p.y + vy
  let dxC := x - center
  let dyC := y - center
  let r0 := P.sqrtQ (dxC * dxC + dyC * dyC)
  let r := if r0 = 0 then 1 else r0
  let v2 :=
    if r > softBoundaryStart then
      let t := min 1 ((r - softBoundaryStart) / (radius - softBoundaryStart))
      let inward := ((2/5) + (3/5) * t) * alpha
      (vx + (-dxC / r) * inward, vy + (-dyC / r) * inward)
    else (vx, vy)
  if r > radius then
    let scale := radius / r
    { id := p.id, x := center + dxC * scale, y := center + dyC * scale,
      vx := v2.1, vy := v2.2 }
  else
    { id := p.id, x := x, y := y, vx := v2.1, vy := v2.2 }

/-- One iteration of the force loop. -/
def simIter (P : MathPrims) (edges : List KGEdge)
    (canvasSize nodeW center radius softBoundaryStart : ℚ) (iterations : ℕ)
    (iter : ℕ) (ps : List PosState) : List PosState :=
  let alpha := max (1/20) (1 - (iter : ℚ) / (iterations : ℚ))
  let ps1 := ps.map (fun p => { p with vx := 0, vy := 0 })
  let ps2 := (pairList ps1.length).foldl (repulsePair P nodeW alpha) ps1
  let ps3 := edges.foldl (attractEdge P nodeW alpha) ps2
  let ps4 := ps3.map (centerStep P canvasSize center alpha)
  ps4.map (integrateStep P center radius softBoundaryStart alpha)

/-- `simulateForceLayout` from `knowledge-graph.tsx` (the component calls it
with `iterations = 150`). -/
def simulateForceLayout (P : MathPrims) (nodes : List KGNode)
    (edges : List KGEdge) (dims : Dimensions) (iterations : ℕ) :
    List PosState :=
  let canvasSize := dims.canvasSize
  let nodeW := dims.nodeW
  let center := canvasSize / 2
  let padding := nodeW * 2
  let radius := center - padding
  let softBoundaryStart := radius - nodeW * (3/2)
  (List.range iterations).foldl
    (fun ps iter =>
      simIter P edges canvasSize nodeW center radius softBoundaryStart
        iterations iter ps)
    (initPositions P nodes dims)

/-! ### Degree map and filter controller of `KnowledgeGraphViewer` -/

/-- Seeding of the degree map: `nodes.forEach(n => m.set(n.id, 0))`. -/
def degInit (nodes : List KGNode) : List (Str × ℕ) :=
  nodes.foldl (fun m n => amSet m n.id 0) []

/-- One edge's contribution to the degree map
(`m.set(e.source, (m.get(e.source) ?? 0) + 1)` and likewise for the
target). -/
def degStep (m : List (Str × ℕ)) (e : KGEdge) : List (Str × ℕ) :=
  let m1 := amSet m e.source ((amGet m e.source).getD 0 + 1)
  amSet m1 e.target ((amGet m1 e.target).getD 0 + 1)

/-- The `degreeMap` computation of the first `useMemo`: seed every node id
with 0, then add 1 to both endpoints of every edge. -/
def degreeEntries (nodes : List KGNode) (edges : List KGEdge) :
    List (Str × ℕ) :=
  edges.foldl degStep (degInit nodes)

/-- Degree lookup (`degreeMap.get(id) ?? 0`). -/
def degreeOf (nodes : List KGNode) (edges : List KGEdge) (id : Str) : ℕ :=
  (amGet (degreeEntries nodes edges) id).getD 0

/-- `isolatesCount` of the first `useMemo`. -/
def isolatesCount (nodes : List KGNode) (edges : List KGEdge) : ℕ :=
  ((degreeEntries nodes edges).filter (fun p => p.2 = 0)).length

/-- `maxDegreeValue` of the first `useMemo`. -/
def maxDegreeValue (nodes : List KGNode) (edges : List KGEdge) : ℕ :=
  (degreeEntries nodes edges).foldl (fun m p => max m p.2) 0

/-- `relationTypes` of the first `useMemo`. -/
def relationTypes (edges : List KGEdge) : List Str :=
  sortStrs (dedupFirst (edges.map (fun e => e.label)))

/-- The transient filter state of `KnowledgeGraphViewer` (selected sets,
search term, degree bounds, isolate toggle).  `maxDegree = none` models the
`Infinity` default. -/
structure FilterState where
  showIsolates : Bool
  selectedEntityTypes : List Str
  selectedRelationTypes : List Str
  searchTerm : Str
  minDegree : ℕ
  maxDegree : Option ℕ
deriving DecidableEq, Repr

/-- The `degree > maxDegree` comparison against a possibly-infinite bound. -/
def degAboveMax (degree : ℕ) (maxDegree : Option ℕ) : Bool :=
  match maxDegree with
  | none => false
  | some m => degree > m

/-- The node filter predicate of the second `useMemo` (`filteredNodes`),
with its early-return chain. -/
def nodeVisible (fs : FilterState) (deg : List (Str × ℕ)) (n : KGNode) :
    Bool :=
  if fs.selectedEntityTypes.length > 0 &&
      !(fs.selectedEntityTypes.contains n.type) then false
  else if !fs.searchTerm.isEmpty &&
      !(strIncludes (lowerStr n.label) (lowerStr fs.searchTerm)) then false
  else
    let degree := (amGet deg n.id).getD 0
    if degree < fs.minDegree || degAboveMax degree fs.maxDegree then false
    else if !fs.showIsolates && degree = 0 then false
    else true

/-- `filteredNodes` of the second `useMemo`. -/
def filteredNodes (nodes : List KGNode) (edges : List KGEdge)
    (fs : FilterState) : List KGNode :=
  nodes.filter (nodeVisible fs (degreeEntries nodes edges))

/-- `filteredEdges` of the second `useMemo`: both endpoints visible and the
relation-type filter passes. -/
def filteredEdges (nodes : List KGNode) (edges : List KGEdge)
    (fs : FilterState) : List KGEdge :=
  let nodeIds := (filteredNodes nodes edges fs).map (fun n => n.id)
  edges.filter (fun e =>
    if !(nodeIds.contains e.source) || !(nodeIds.contains e.target) then false
    else if fs.selectedRelationTypes.length > 0 &&
        !(fs.selectedRelationTypes.contains e.label) then false
    else true)

/-- The filter-dependent derived state of `KnowledgeGraphViewer`, bundling
the degree map (from the first `useMemo`, which does not depend on the
filter state) with the visible subgraph (from the second). -/
def viewerDerived (nodes : List KGNode) (edges : List KGEdge)
    (fs : FilterState) :
    List (Str × ℕ) × List KGNode × List KGEdge :=
  (degreeEntries nodes edges, filteredNodes nodes edges fs,
   filteredEdges nodes edges fs)

/-! ### Concrete inputs used by the example theorems and witnesses -/

/-- The exact input of the spec's worked example. -/
def exInput : Str :=
  ("Retrieved Facts: • (service:\"risk mgmt\") -[ADDRESSES]-> (risk:\"fraud\") [1]\nSources:\n[1] https://a.com").toList

/-- The program's parse of `exInput`: the edge's `sources` field is `none`
(the `/[\\[\\]]/g` replace never fires in `"[1]"`, so `parseInt` returns
`NaN` and the URL lookup misses), while `sourceIndices` comes from the
correct `/\D/g` replace. -/
def exExpected : ParsedFacts :=
  { cleanText := [],
    nodes := [
      { id := "service:risk mgmt".toList, type := "service".toList,
        label := "risk mgmt".toList },
      { id := "risk:fraud".toList, type := "risk".toList,
        label := "fraud".toList }],
    edges := [
      { id := "e_0".toList, source := "service:risk mgmt".toList,
        target := "risk:fraud".toList, label := "ADDRESSES".toList,
        sources := none, sourceIndices := some [1] }],
    types := ["risk".toList, "service".toList],
    sourceIndexToUrl := [(1, "https://a.com".toList)],
    preamble := none }

/-- Facts block whose two bullets mention the same `(a, x)` entity, the
second occurrence supplying a `url` attribute that the first lacks. -/
def mergeInput : Str :=
  ("Retrieved Facts: • (a:\"x\") -[R]-> (b:\"y\") • (a:\"x\" url=u) -[R]-> (b:\"y\")").toList

/-- First bullet of the first-seen-wins witness. -/
def mergeFb : Str := ("(a:\"x\") -[R]-> (b:\"y\")").toList

/-- Second bullet of the first-seen-wins witness. -/
def mergeTail : Str := (" (a:\"x\" url=u) -[R]-> (b:\"y\")").toList

/-- The `a:x` node as produced by the first bullet (no attributes). -/
def mergeNodeA : KGNode :=
  { id := "a:x".toList, type := "a".toList, label := "x".toList }

/-- A `Chat_Response` that is exactly a fact block (its clean text is
empty). -/
def pureFactsChat : Str :=
  ("Retrieved Facts: • (a:\"x\") -[R]-> (b:\"y\")").toList

/-- A structured response whose answer is exactly a fact block. -/
def pureFactsSR : StructuredResponse :=
  { Research := { targets := [], findings := [] },
    Chat_Response := pureFactsChat, Suggested_Actions := [] }

/-- The parse of `pureFactsChat` (a `some`, extracted for the normalizer
witness). -/
def pureFactsParsed : ParsedFacts :=
  (parseRetrievedFacts pureFactsChat).getD default

/-- An input whose `Sources:` list precedes its `Retrieved Facts:` block,
so the clean text retains the `Sources:` marker. -/
def sourcesFirstInput : Str :=
  ("Sources: [1] https://a.com\nRetrieved Facts: • (a:\"x\") -[R]-> (b:\"y\")").toList

/-- The parse of `sourcesFirstInput` (a `some`, extracted for the
idempotence witness). -/
def sourcesFirstParsed : ParsedFacts :=
  (parseRetrievedFacts sourcesFirstInput).getD default

/-- The re-parse of that parse's clean text. -/
def sourcesFirstReparsed : ParsedFacts :=
  (parseRetrievedFacts sourcesFirstParsed.cleanText).getD default

/-- Math primitives for the layout witness: an over-approximating rational
square root (by AM-GM, `x ≤ ((x+1)/2)^2` for `x ≥ 0`), constant trig, and
a constant random stream. -/
def wPrims : MathPrims :=
  { sqrtQ := fun x => (x + 1) / 2, cosQ := fun _ => 1, sinQ := fun _ => 0,
    piQ := 3, rand := fun _ => 1/2 }

/-- Single node used by the layout witness. -/
def wNode : KGNode :=
  { id := "n:1".toList, type := "n".toList, label := "1".toList }

/-- One-iteration layout of the single witness node. -/
def wLayout : List PosState :=
  simulateForceLayout wPrims [wNode] [] (calculateDimensions wPrims.sqrtQ 1) 1

/-- The single resulting position. -/
def wPos : PosState := wLayout.getD 0 default

/-- Witness graph: two connected nodes and one isolate. -/
def wgNodes : List KGNode :=
  [{ id := "a:x".toList, type := "a".toList, label := "x".toList },
   { id := "b:y".toList, type := "b".toList, label := "y".toList },
   { id := "c:z".toList, type := "c".toList, label := "z".toList }]

/-- Witness edge set: one edge between the first two nodes. -/
def wgEdges : List KGEdge :=
  [{ id := "e_0".toList, source := "a:x".toList, target := "b:y".toList,
     label := "R".toList }]

/-- A filter state with a search term. -/
def wgFs1 : FilterState :=
  { showIsolates := false, selectedEntityTypes := [],
    selectedRelationTypes := [], searchTerm := "x".toList, minDegree := 0,
    maxDegree := none }

/-- The same filter state with a different search term and isolate toggle. -/
def wgFs2 : FilterState :=
  { showIsolates := true, selectedEntityTypes := [],
    selectedRelationTypes := [], searchTerm := "z".toList, minDegree := 0,
    maxDegree := none }

/-- The first witness node. -/
def wgNodeA : KGNode :=
  { id := "a:x".toList, type := "a".toList, label := "x".toList }

/-- A grouped-parser line that is a full triple but starts with `(`. -/
def wgLine : Str := ("(a:\"x\") -[R]-> (b:\"y\")").toList

/-- An empty grouped-parser accumulator. -/
def wgAcc : GroupedAcc :=
  { nodesById := [], edges := [], edgeCounter := 0, currentCentral := none }

/-! ## Theorems -/

/-- Lookup after a cons. -/
theorem amGet_cons {κ β : Type} [DecidableEq κ] (a : κ) (b : β)
    (m : List (κ × β)) (k : κ) :
    amGet ((a, b) :: m) k = if a = k then some b else amGet m k := by
  simp only [amGet, List.find?]
  by_cases h : a = k
  · simp [h]
  · simp [h]

/-- Replacing the entries keyed `k` does not affect other lookups. -/
theorem amGet_replaceAll {κ β : Type} [DecidableEq κ] (m : List (κ × β))
    (k k' : κ) (v : β) (h : k' ≠ k) :
    amGet (m.map (fun p => if p.1 = k then (k, v) else p)) k' = amGet m k' := by
  induction m with
  | nil => rfl
  | cons p m ih =>
      obtain ⟨a, b⟩ := p
      simp only [List.map_cons]
      by_cases hp : a = k
      · rw [if_pos hp]
        rw [amGet_cons, amGet_cons]
        have h1 : ¬ k = k' := fun hh => h hh.symm
        have h2 : ¬ a = k' := fun hh => h (hh.symm.trans hp)
        simp only [if_neg h1, if_neg h2, ih]
      · rw [if_neg hp]
        rw [amGet_cons, amGet_cons]
        by_cases hq : a = k'
        · simp [hq]
        · simp [hq, ih]

/-- Replacing the entries keyed `k` makes lookup at `k` return the new
value, provided some entry carries `k`. -/
theorem amGet_replaceAll_self {κ β : Type} [DecidableEq κ]
    (m : List (κ × β)) (k : κ) (v : β)
    (h : m.any (fun p => p.1 = k) = true) :
    amGet (m.map (fun p => if p.1 = k then (k, v) else p)) k = some v := by
  induction m with
  | nil => simp at h
  | cons p m ih =>
      obtain ⟨a, b⟩ := p
      simp only [List.map_cons]
      by_cases hp : a = k
      · rw [if_pos hp]
        rw [amGet_cons]
        simp
      · have h2 : (m.any fun p => p.1 = k) = true := by
          cases hor : (m.any fun p => decide (p.1 = k))
          · exfalso
            rw [List.any_cons] at h
            simp [hor, hp] at h
          · rfl
        rw [if_neg hp]
        rw [amGet_cons]
        simp only [if_neg hp]
        exact ih h2

/-- Lookup in a map extended with a fresh key. -/
theorem amGet_append_single {κ β : Type} [DecidableEq κ]
    (m : List (κ × β)) (k k' : κ) (v : β)
    (h : m.any (fun p => p.1 = k) = false) :
    amGet (m ++ [(k, v)]) k' = if k' = k then some v else amGet m k' := by
  induction m with
  | nil =>
      simp only [List.nil_append]
      rw [amGet_cons]
      by_cases hk : k' = k
      · simp [hk]
      · have h1 : ¬ k = k' := fun hh => hk hh.symm
        simp [hk, h1]
  | cons p m ih =>
      obtain ⟨a, b⟩ := p
      rw [List.any_cons] at h
      have ha : ¬ a = k := by
        intro hh
        simp [hh] at h
      have h2 : (m.any fun p => p.1 = k) = false := by
        cases hor : (m.any fun p => decide (p.1 = k))
        · rfl
        · simp [hor] at h
      simp only [List.cons_append]
      rw [amGet_cons, amGet_cons]
      by_cases hq : a = k'
      · have h1 : ¬ k' = k := fun hh => ha (hq.trans hh)
        simp [hq, h1]
      · simp only [if_neg hq]
        exact ih h2

/-- Full specification of `amSet` under `amGet`. -/
theorem amGet_amSet {κ β : Type} [DecidableEq κ] (m : List (κ × β))
    (k k' : κ) (v : β) :
    amGet (amSet m k v) k' = if k' = k then some v else amGet m k' := by
  unfold amSet
  by_cases hmem : (m.any fun p => p.1 = k) = true
  · simp only [hmem, if_true]
    by_cases hk : k' = k
    · subst hk
      simp [amGet_replaceAll_self m k' v hmem]
    · simp [hk, amGet_replaceAll m k k' v hk]
  · have hf : (m.any fun p => p.1 = k) = false := by
      cases hor : (m.any fun p => decide (p.1 = k))
      · rfl
      · exact absurd hor hmem
    simp only [hf, Bool.false_eq_true, if_false]
    exact amGet_append_single m k k' v hf

set_option maxRecDepth 40000

/-- Seeding the degree map gives every id degree 0. -/
theorem degInit_zero_aux (nodes : List KGNode) (m : List (Str × ℕ))
    (h : ∀ j, (amGet m j).getD 0 = 0) (id : Str) :
    (amGet (nodes.foldl (fun m n => amSet m n.id 0) m) id).getD 0 = 0 := by
  induction nodes generalizing m with
  | nil => exact h id
  | cons n ns ih =>
      simp only [List.foldl_cons]
      refine ih _ (fun j => ?_)
      rw [amGet_amSet]
      split
      · rfl
      · exact h j

/-- The seeded degree map is zero everywhere. -/
theorem degInit_zero (nodes : List KGNode) (id : Str) :
    (amGet (degInit nodes) id).getD 0 = 0 :=
  degInit_zero_aux nodes [] (fun _ => rfl) id

/-- One `degStep` adds one to each endpoint's count. -/
theorem degStep_spec (m : List (Str × ℕ)) (e : KGEdge) (key : Str) :
    (amGet (degStep m e) key).getD 0 =
    (amGet m key).getD 0 + (if e.source = key then 1 else 0) +
      (if e.target = key then 1 else 0) := by
  unfold degStep
  simp only [amGet_amSet]
  by_cases ht : key = e.target
  · subst ht
    by_cases hs : e.target = e.source
    · simp [hs]
    · have hs' : ¬ e.source = e.target := fun hh => hs hh.symm
      simp [hs, hs']
  · have ht' : ¬ e.target = key := fun hh => ht hh.symm
    by_cases hs : key = e.source
    · subst hs
      simp [ht, ht']
    · have hs' : ¬ e.source = key := fun hh => hs hh.symm
      simp [ht, hs, hs', ht']

/-- Folding `degStep` over an edge list adds the incident-edge counts. -/
theorem degreeEntries_fold (edges : List KGEdge) (m : List (Str × ℕ))
    (id : Str) :
    (amGet (edges.foldl degStep m) id).getD 0 =
    (amGet m id).getD 0 + (edges.filter (fun e => e.source = id)).length +
      (edges.filter (fun e => e.target = id)).length := by
  induction edges generalizing m with
  | nil => simp
  | cons e es ih =>
      simp only [List.foldl_cons, List.filter_cons]
      rw [ih, degStep_spec]
      by_cases hs : e.source = id <;> by_cases ht : e.target = id <;>
        simp [hs, ht] <;> omega

/-- Claim C6 (amended form not needed — confirmed): the degree map of
`KnowledgeGraphViewer` is a function of the full node and edge sets only,
so it is identical under any two filter states, and every node's entry is
the count of its incident edges over the full edge set. -/
theorem degree_filter_noninterference (nodes : List KGNode)
    (edges : List KGEdge) (fs1 fs2 : FilterState) :
    (viewerDerived nodes edges fs1).1 = (viewerDerived nodes edges fs2).1 ∧
    ∀ n ∈ nodes, degreeOf nodes edges n.id =
      (edges.filter (fun e => e.source = n.id)).length +
      (edges.filter (fun e => e.target = n.id)).length := by
  refine ⟨rfl, fun n _ => ?_⟩
  unfold degreeOf degreeEntries
  rw [degreeEntries_fold, degInit_zero]
  omega

/-- Witness for C6: concrete graph, two filter states differing in search
term and isolate toggle; the degree map is unchanged and the first node's
degree is its incident count 1. -/
theorem degree_filter_noninterference_witness :
    (viewerDerived wgNodes wgEdges wgFs1).1 =
      (viewerDerived wgNodes wgEdges wgFs2).1 ∧
    wgNodeA ∈ wgNodes ∧ degreeOf wgNodes wgEdges wgNodeA.id = 1 := by
  obtain ⟨h1, h2⟩ :=
    degree_filter_noninterference wgNodes wgEdges wgFs1 wgFs2
  have hm : wgNodeA ∈ wgNodes := by decide
  refine ⟨h1, hm, ?_⟩
  rw [h2 wgNodeA hm]
  decide

/-- Claim C10 (confirmed): in the grouped facts-preview parser, a trimmed
line beginning with `(` is consumed solely as a central-entity declaration:
it appends no edge, leaves the edge counter unchanged, and updates the
current central entity exactly when the entity span parses. -/
theorem groupedStep_paren_line_central_only (srcMap : List (Nat × Str))
    (acc : GroupedAcc) (rawLine : Str) (h1 : trimStr rawLine ≠ [])
    (h2 : (trimStr rawLine).head? = some '(') :
    (groupedStep srcMap acc rawLine).edges = acc.edges ∧
    (groupedStep srcMap acc rawLine).edgeCounter = acc.edgeCounter ∧
    (groupedStep srcMap acc rawLine).currentCentral =
      (match (groupedParseEntity acc.nodesById (trimStr rawLine)).1 with
       | some n => some n
       | none => acc.currentCentral) := by
  simp only [groupedStep]
  rw [if_neg h1, if_pos h2]
  exact ⟨rfl, rfl, rfl⟩

/-- Witness for C10: the full-triple line `(a:"x") -[R]-> (b:"y")` starts
with `(`, so it yields no edge and only re-centres on `a:x`. -/
theorem groupedStep_paren_line_central_only_witness :
    trimStr wgLine ≠ [] ∧ (trimStr wgLine).head? = some '(' ∧
    (groupedStep [] wgAcc wgLine).edges = wgAcc.edges ∧
    (groupedStep [] wgAcc wgLine).currentCentral = some wgNodeA := by
  have h1 : trimStr wgLine ≠ [] := by decide
  have h2 : (trimStr wgLine).head? = some '(' := by decide
  obtain ⟨e1, e2, e3⟩ := groupedStep_paren_line_central_only [] wgAcc wgLine h1 h2
  refine ⟨h1, h2, e1, ?_⟩
  rw [e3]
  decide

/-- Claim C2 (code bug): on the spec's exact worked example the parser
returns the two stated nodes, the `ADDRESSES` edge with citation indices
`[1]`, and the source map `1 ↦ https://a.com` — but the edge's citation
URLs are absent (`sources = none`), not `["https://a.com"]` as claimed: at
api.ts line 328 the replace regex `/[\\[\\]]/g` is the class (`\` or `[`)
followed by a literal `]`, which never matches in `"[1]"`, so `parseInt`
receives `"[1]"`, yields `NaN`, and the `sourceIndexToUrl` lookup fails,
leaving `edgeSources` empty on every bullet. -/
theorem parseRetrievedFacts_example_divergence :
    parseRetrievedFacts exInput = some exExpected ∧
    exExpected.edges.map KGEdge.sources = [none] := by decide

/-- Counterexample to claim C3 as stated: the input consisting of exactly
the `Retrieved Facts:` marker (and nothing after it) contains a facts
marker, yet the parser returns `none`. -/
theorem parse_marker_null_counterexample :
    findSubCI FACTS_LABEL FACTS_LABEL = some 0 ∧
    parseRetrievedFacts FACTS_LABEL = none := by decide

/-- Counterexample to claim C1 as stated: in
`Retrieved Facts: • (a:"x") -[R]-> (b:"y") • (a:"x" url=u) -[R]-> (b:"y")`
the second occurrence of `(a, x)` supplies a `url` attribute (as
`parseEntity` on its span shows), but the merged node keeps only the first
occurrence's attributes — the `url` is lost, so the union property fails. -/
theorem parse_merge_union_counterexample :
    (parseRetrievedFacts mergeInput).map (fun r => r.nodes) =
      some [mergeNodeA,
            { id := "b:y".toList, type := "b".toList, label := "y".toList }] ∧
    parseEntity ("a:\"x\" url=u").toList =
      some { id := "a:x".toList, type := "a".toList, label := "x".toList,
             url := some "u".toList, page := none,
             attrs := some [("url".toList, "u".toList)] } ∧
    mergeNodeA.url = none := by decide

/-- Counterexample to claim C4 as stated: for a structured payload whose
`Chat_Response` is exactly a fact block, graph extraction succeeds (two
nodes) and the clean text is empty, but `chatResponse` is the original
answer rather than the clean text (`cleanText || Chat_Response` falls back
on the empty string). -/
theorem normalizer_cleanText_counterexample :
    (parseRetrievedFacts pureFactsChat).map ParsedFacts.cleanText = some [] ∧
    (parseRetrievedFacts pureFactsChat).map (fun r => r.nodes.length) =
      some 2 ∧
    (parseStructuredGraphRAGResponse pureFactsSR [] none).chatResponse =
      pureFactsChat ∧
    pureFactsChat ≠ [] := by decide

/-- Counterexample to claim C8 as stated: when a `Sources:` list precedes
the `Retrieved Facts:` block, the clean text retains a `Sources:` marker
(the re-parse still yields no nodes or edges, but the "no markers remain"
part of the claim is false). -/
theorem cleanText_sources_marker_counterexample :
    parseRetrievedFacts sourcesFirstInput = some sourcesFirstParsed ∧
    (findSubCI SOURCES_LABEL sourcesFirstParsed.cleanText).isSome = true := by
  decide

/-- The node scale factor of `calculateDimensions` is antitone in the node
count. -/
theorem scaleFactor_antitone (a b : ℕ) (hab : a ≤ b) :
    (if b > 50 then max (7/10 : ℚ) (1 - ((b : ℚ) - 50) / 200) else 1) ≤
    (if a > 50 then max (7/10 : ℚ) (1 - ((a : ℚ) - 50) / 200) else 1) := by
  by_cases ha : a > 50
  · have hb : b > 50 := lt_of_lt_of_le ha hab
    have hc : ((a : ℚ)) ≤ (b : ℚ) := by exact_mod_cast hab
    rw [if_pos ha, if_pos hb]
    refine max_le (le_max_left _ _) (le_max_of_le_right ?_)
    linarith
  · by_cases hb : b > 50
    · have hc : ((51 : ℚ)) ≤ (b : ℚ) := by exact_mod_cast hb
      rw [if_pos hb, if_neg ha]
      refine max_le (by norm_num) (by linarith)
    · rw [if_neg ha, if_neg hb]

/-- Claim C9 (confirmed): `calculateDimensions` is monotone in node count
(canvas size never shrinks, node width never grows as nodes are added, for
any monotone square root), and the minimums 800 / 80 / 24 always hold. -/
theorem calculateDimensions_monotone_min (sqrtQ : ℚ → ℚ)
    (hmono : ∀ a b : ℚ, 0 ≤ a → a ≤ b → sqrtQ a ≤ sqrtQ b)
    (n1 n2 : ℕ) (h : n1 ≤ n2) :
    (calculateDimensions sqrtQ n1).canvasSize ≤
      (calculateDimensions sqrtQ n2).canvasSize ∧
    (calculateDimensions sqrtQ n2).nodeW ≤ (calculateDimensions sqrtQ n1).nodeW ∧
    800 ≤ (calculateDimensions sqrtQ n1).canvasSize ∧
    80 ≤ (calculateDimensions sqrtQ n1).nodeW ∧
    24 ≤ (calculateDimensions sqrtQ n1).nodeH := by
  have hs : sqrtQ ((n1 : ℚ) / 10) ≤ sqrtQ ((n2 : ℚ) / 10) := by
    refine hmono _ _ (by positivity) ?_
    have hc : ((n1 : ℚ)) ≤ (n2 : ℚ) := by exact_mod_cast h
    linarith
  have hsf := scaleFactor_antitone n1 n2 h
  refine ⟨?_, ?_, ?_, ?_, ?_⟩
  · simp only [calculateDimensions]
    exact max_le_max (le_refl _) (by linarith)
  · simp only [calculateDimensions]
    exact max_le_max (le_refl _) (by nlinarith)
  · simp only [calculateDimensions]
    exact le_max_left _ _
  · simp only [calculateDimensions]
    exact le_max_left _ _
  · simp only [calculateDimensions]
    exact le_max_left _ _

/-- Witness for C9: the identity function is a monotone square root stand-in;
at node counts 3 and 7 the dimensions are the base values. -/
theorem calculateDimensions_monotone_min_witness :
    (∀ a b : ℚ, 0 ≤ a → a ≤ b → (fun x : ℚ => x) a ≤ (fun x : ℚ => x) b) ∧
    (3 : ℕ) ≤ 7 ∧
    (calculateDimensions (fun x : ℚ => x) 3).canvasSize ≤
      (calculateDimensions (fun x : ℚ => x) 7).canvasSize ∧
    800 ≤ (calculateDimensions (fun x : ℚ => x) 3).canvasSize ∧
    80 ≤ (calculateDimensions (fun x : ℚ => x) 3).nodeW ∧
    24 ≤ (calculateDimensions (fun x : ℚ => x) 3).nodeH := by
  have hm : ∀ a b : ℚ, 0 ≤ a → a ≤ b → (fun x : ℚ => x) a ≤ (fun x : ℚ => x) b :=
    fun a b _ hab => hab
  obtain ⟨h1, _, h3, h4, h5⟩ :=
    calculateDimensions_monotone_min (fun x : ℚ => x) hm 3 7 (by norm_num)
  exact ⟨hm, by norm_num, h1, h3, h4, h5⟩

/-- The empty pattern is always included (`''.includes` behaviour of the
search filter when the search term is empty). -/
theorem strIncludes_nil (s : Str) : strIncludes s [] = true := by
  cases s <;> simp [strIncludes, findSubCS, List.isPrefixOf]

/-- Characterization of the early-return chain of the node filter. -/
theorem nodeVisible_iff (fs : FilterState) (deg : List (Str × ℕ)) (n : KGNode) :
    nodeVisible fs deg n = true ↔
      ((fs.selectedEntityTypes = [] ∨ n.type ∈ fs.selectedEntityTypes) ∧
       strIncludes (lowerStr n.label) (lowerStr fs.searchTerm) = true ∧
       fs.minDegree ≤ (amGet deg n.id).getD 0 ∧
       degAboveMax ((amGet deg n.id).getD 0) fs.maxDegree = false ∧
       (0 < (amGet deg n.id).getD 0 ∨ fs.showIsolates = true)) := by
  unfold nodeVisible
  by_cases h1 : (fs.selectedEntityTypes.length > 0 &&
      !(fs.selectedEntityTypes.contains n.type)) = true
  · rw [if_pos h1]
    refine iff_of_false (by simp) ?_
    simp only [Bool.and_eq_true, decide_eq_true_eq, Bool.not_eq_true'] at h1
    rintro ⟨htype, -⟩
    rcases htype with h | h
    · simp [h] at h1
    · have hmem : fs.selectedEntityTypes.contains n.type = true :=
        List.elem_iff.mpr h
      rw [h1.2] at hmem
      exact absurd hmem (by simp)
  · rw [if_neg h1]
    have h1' : fs.selectedEntityTypes = [] ∨ n.type ∈ fs.selectedEntityTypes := by
      by_cases he : fs.selectedEntityTypes = []
      · exact Or.inl he
      · refine Or.inr ?_
        rw [Bool.and_eq_true] at h1
        push_neg at h1
        have hlen : (decide (fs.selectedEntityTypes.length > 0)) = true := by
          simp [List.length_pos.mpr he]
        have hnc := h1 hlen
        have hcon : fs.selectedEntityTypes.contains n.type = true := by
          cases hc : fs.selectedEntityTypes.contains n.type
          · exact absurd (by simp only [hc, Bool.not_false]) hnc
          · rfl
        exact List.elem_iff.mp hcon
    by_cases h2 : (!fs.searchTerm.isEmpty &&
        !(strIncludes (lowerStr n.label) (lowerStr fs.searchTerm))) = true
    · rw [if_pos h2]
      refine iff_of_false (by simp) ?_
      simp only [Bool.and_eq_true, Bool.not_eq_true'] at h2
      rintro ⟨-, hsearch, -⟩
      rw [h2.2] at hsearch
      exact absurd hsearch (by simp)
    · rw [if_neg h2]
      have h2' : strIncludes (lowerStr n.label) (lowerStr fs.searchTerm) = true := by
        by_cases hse : fs.searchTerm = []
        · rw [hse]
          exact strIncludes_nil _
        · rw [Bool.and_eq_true] at h2
          push_neg at h2
          have hne : (!fs.searchTerm.isEmpty) = true := by
            simp [List.isEmpty_iff, hse]
          have hni := h2 hne
          cases hc : strIncludes (lowerStr n.label) (lowerStr fs.searchTerm)
          · exact absurd (by simp [hc]) hni
          · rfl
      by_cases h3 : ((amGet deg n.id).getD 0 < fs.minDegree ||
          degAboveMax ((amGet deg n.id).getD 0) fs.maxDegree) = true
      · rw [if_pos h3]
        refine iff_of_false (by simp) ?_
        simp only [Bool.or_eq_true, decide_eq_true_eq] at h3
        rintro ⟨-, -, hmin, hmax, -⟩
        rcases h3 with h | h
        · omega
        · rw [h] at hmax
          exact absurd hmax (by simp)
      · rw [if_neg h3]
        simp only [Bool.or_eq_true, decide_eq_true_eq] at h3
        push_neg at h3
        obtain ⟨hmin, hmax⟩ := h3
        have hmin' : fs.minDegree ≤ (amGet deg n.id).getD 0 := by omega
        have hmax' : degAboveMax ((amGet deg n.id).getD 0) fs.maxDegree = false := by
          cases hdb : degAboveMax ((amGet deg n.id).getD 0) fs.maxDegree
          · rfl
          · exact absurd hdb hmax
        by_cases h4 : (!fs.showIsolates &&
            decide ((amGet deg n.id).getD 0 = 0)) = true
        · rw [if_pos h4]
          refine iff_of_false (by simp) ?_
          simp only [Bool.and_eq_true, Bool.not_eq_true', decide_eq_true_eq] at h4
          rintro ⟨-, -, -, -, hlast⟩
          rcases hlast with h | h
          · omega
          · rw [h4.1] at h
            exact absurd h (by simp)
        · rw [if_neg h4]
          refine iff_of_true rfl ?_
          refine ⟨h1', h2', hmin', hmax', ?_⟩
          by_cases hz : (amGet deg n.id).getD 0 = 0
          · refine Or.inr ?_
            cases hsi : fs.showIsolates
            · exact absurd (by simp [hsi, hz]) h4
            · rfl
          · exact Or.inl (by omega)
/-- Claim C7 (confirmed): a node is visible iff its type passes the
entity-type filter, its lowercased label contains the lowercased search
term as a substring, its full-graph degree lies within
`[minDegree, maxDegree]`, and it has positive degree or isolates are
shown; an edge is visible only if both endpoints are visible and its
relation label passes the relation-type filter. -/
theorem filter_visibility_rules (nodes : List KGNode) (edges : List KGEdge)
    (fs : FilterState) :
    (∀ n ∈ nodes,
      (n ∈ filteredNodes nodes edges fs ↔
        ((fs.selectedEntityTypes = [] ∨ n.type ∈ fs.selectedEntityTypes) ∧
         strIncludes (lowerStr n.label) (lowerStr fs.searchTerm) = true ∧
         fs.minDegree ≤ degreeOf nodes edges n.id ∧
         degAboveMax (degreeOf nodes edges n.id) fs.maxDegree = false ∧
         (0 < degreeOf nodes edges n.id ∨ fs.showIsolates = true)))) ∧
    (∀ e ∈ filteredEdges nodes edges fs,
      e.source ∈ (filteredNodes nodes edges fs).map (fun n => n.id) ∧
      e.target ∈ (filteredNodes nodes edges fs).map (fun n => n.id) ∧
      (fs.selectedRelationTypes = [] ∨ e.label ∈ fs.selectedRelationTypes)) := by
  constructor
  · intro n hn
    unfold filteredNodes
    rw [List.mem_filter, nodeVisible_iff]
    unfold degreeOf
    simp [hn]
  · intro e he
    simp only [filteredEdges] at he
    rw [List.mem_filter] at he
    obtain ⟨-, hpred⟩ := he
    by_cases hc1 : ((!((filteredNodes nodes edges fs).map (fun n => n.id)).contains e.source) ||
        (!((filteredNodes nodes edges fs).map (fun n => n.id)).contains e.target)) = true
    · rw [if_pos hc1] at hpred
      exact absurd hpred (by simp)
    · rw [if_neg hc1] at hpred
      simp only [Bool.or_eq_true, Bool.not_eq_true'] at hc1
      push_neg at hc1
      obtain ⟨h1, h2⟩ := hc1
      have hsrc : ((filteredNodes nodes edges fs).map (fun n => n.id)).contains
          e.source = true := by
        cases hq : ((filteredNodes nodes edges fs).map (fun n => n.id)).contains e.source
        · exact absurd hq h1
        · rfl
      have htgt : ((filteredNodes nodes edges fs).map (fun n => n.id)).contains
          e.target = true := by
        cases hq : ((filteredNodes nodes edges fs).map (fun n => n.id)).contains e.target
        · exact absurd hq h2
        · rfl
      refine ⟨List.elem_iff.mp hsrc, List.elem_iff.mp htgt, ?_⟩
      by_cases hrel : fs.selectedRelationTypes = []
      · exact Or.inl hrel
      · refine Or.inr ?_
        by_cases hc2 : (fs.selectedRelationTypes.length > 0 &&
            !(fs.selectedRelationTypes.contains e.label)) = true
        · rw [if_pos hc2] at hpred
          exact absurd hpred (by simp)
        · rw [Bool.and_eq_true] at hc2
          push_neg at hc2
          have hlen : (decide (fs.selectedRelationTypes.length > 0)) = true := by
            simp [List.length_pos.mpr hrel]
          have hnc := hc2 hlen
          have hcon : fs.selectedRelationTypes.contains e.label = true := by
            cases hq : fs.selectedRelationTypes.contains e.label
            · exact absurd (by simp only [hq, Bool.not_false]) hnc
            · rfl
          exact List.elem_iff.mp hcon

/-- Witness for C7: in the concrete witness graph, node `a:x` passes all
four node conditions under the search-term filter state. -/
theorem filter_visibility_rules_witness :
    wgNodeA ∈ wgNodes ∧ wgNodeA ∈ filteredNodes wgNodes wgEdges wgFs1 := by
  have hmem : wgNodeA ∈ wgNodes := by decide
  have h := (filter_visibility_rules wgNodes wgEdges wgFs1).1 wgNodeA hmem
  exact ⟨hmem, h.mpr (by decide)⟩

/-- The parser returns `none` on the empty string. -/
theorem parseRetrievedFacts_nil : parseRetrievedFacts ([] : Str) = none := rfl

/-- Claim C4 (amended — corrected): `hasStructuredData` is `true` for every
structured-shape payload; when parsing `Chat_Response` succeeds,
`chatResponse` is the clean text if that is nonempty and the original
`Chat_Response` otherwise (the `||` fallback); when parsing `Chat_Response`
fails and the facts-preview fallback parse also fails or is absent,
`chatResponse` is the original `Chat_Response`. -/
theorem parseStructuredGraphRAGResponse_chatResponse_spec
    (sr : StructuredResponse) (sources : List (Nat × Str))
    (fp : Option (List Str)) :
    (parseStructuredGraphRAGResponse sr sources fp).hasStructuredData = true ∧
    (∀ kg, parseRetrievedFacts sr.Chat_Response = some kg →
      (parseStructuredGraphRAGResponse sr sources fp).chatResponse =
        (if kg.cleanText ≠ [] then kg.cleanText else sr.Chat_Response)) ∧
    (parseRetrievedFacts sr.Chat_Response = none →
      (∀ l, fp = some l → l ≠ [] → parseRetrievedFacts (nlJoin l) = none) →
      (parseStructuredGraphRAGResponse sr sources fp).chatResponse =
        sr.Chat_Response) := by
  refine ⟨?_, ?_, ?_⟩
  · simp only [parseStructuredGraphRAGResponse]
    split
    · rfl
    · split
      · split
        · split
          · rfl
          · rfl
        · rfl
      · rfl
  · intro kg hkg
    have hne : sr.Chat_Response ≠ [] := by
      intro hh
      rw [hh, parseRetrievedFacts_nil] at hkg
      exact absurd hkg (by simp)
    simp only [parseStructuredGraphRAGResponse]
    rw [if_pos hne, hkg]
  · intro hnone hfp
    have hkg0 : (if sr.Chat_Response ≠ [] then
        parseRetrievedFacts sr.Chat_Response else none) = none := by
      split
      · exact hnone
      · rfl
    simp only [parseStructuredGraphRAGResponse]
    rw [hkg0]
    cases hfp' : fp with
    | none => rfl
    | some l =>
        by_cases hl : l ≠ []
        · have hjoin := hfp l hfp' hl
          simp only [if_pos hl, hjoin]
        · simp only [if_neg hl]

/-- Witness for C4: the pure-facts payload exercises the success path of
the normalizer specification. -/
theorem parseStructuredGraphRAGResponse_chatResponse_spec_witness :
    parseRetrievedFacts pureFactsSR.Chat_Response = some pureFactsParsed ∧
    (parseStructuredGraphRAGResponse pureFactsSR [] none).chatResponse =
      (if pureFactsParsed.cleanText ≠ [] then pureFactsParsed.cleanText
       else pureFactsSR.Chat_Response) := by
  have h1 : parseRetrievedFacts pureFactsSR.Chat_Response =
      some pureFactsParsed := by decide
  exact ⟨h1,
    (parseStructuredGraphRAGResponse_chatResponse_spec pureFactsSR []
      none).2.1 pureFactsParsed h1⟩


/-- A parsed entity's id is derived from its type and label. -/
theorem parseEntity_shape (raw : Str) (n : KGNode)
    (h : parseEntity raw = some n) :
    n.id = makeNodeId n.type n.label := by
  unfold parseEntity at h
  cases hm : findTypeLabel none raw with
  | none =>
      rw [hm] at h
      simp only at h
      exact absurd h (by simp)
  | some p =>
      rw [hm] at h
      simp only at h
      split at h
      · exact absurd h (by simp)
      · rw [Option.some.injEq] at h
        rw [← h]

/-- Insert-if-absent preserves key uniqueness. -/
theorem insertIfAbsent_nodup (m : List (Str × KGNode)) (key : Str)
    (nd : KGNode)
    (h1 : (m.map Prod.fst).Nodup) :
    (((if m.any (fun p => p.1 = key) then m else m ++ [(key, nd)]).map
      Prod.fst).Nodup) := by
  split
  · exact h1
  · rename_i hany
    rw [List.map_append]
    refine List.Nodup.append h1 (by simp) ?_
    intro x hx hx2
    simp only [List.map_cons, List.map_nil, List.mem_singleton] at hx2
    subst hx2
    obtain ⟨kv, hkv, hfst⟩ := List.mem_map.mp hx
    exact hany (List.any_eq_true.mpr ⟨kv, hkv, by simp [hfst]⟩)

/-- Insert-if-absent preserves the key/id shape invariant. -/
theorem insertIfAbsent_keys (m : List (Str × KGNode)) (key : Str)
    (nd : KGNode)
    (h2 : ∀ kv ∈ m, kv.1 = kv.2.id ∧ kv.2.id = makeNodeId kv.2.type kv.2.label)
    (hk : key = nd.id) (hid : nd.id = makeNodeId nd.type nd.label) :
    ∀ kv ∈ (if m.any (fun p => p.1 = key) then m else m ++ [(key, nd)]),
      kv.1 = kv.2.id ∧ kv.2.id = makeNodeId kv.2.type kv.2.label := by
  split
  · exact h2
  · intro kv hkv
    rcases List.mem_append.mp hkv with h | h
    · exact h2 kv h
    · simp only [List.mem_singleton] at h
      subst h
      exact ⟨hk, hid⟩

/-- One bullet item preserves the node-map invariant. -/
theorem processItem_inv (srcMap : List (Nat × Str)) (item : Str)
    (acc : FactsAcc)
    (h1 : (acc.nodesById.map Prod.fst).Nodup)
    (h2 : ∀ kv ∈ acc.nodesById,
      kv.1 = kv.2.id ∧ kv.2.id = makeNodeId kv.2.type kv.2.label) :
    ((processItem srcMap acc item).nodesById.map Prod.fst).Nodup ∧
    ∀ kv ∈ (processItem srcMap acc item).nodesById,
      kv.1 = kv.2.id ∧ kv.2.id = makeNodeId kv.2.type kv.2.label := by
  unfold processItem
  cases ht : findTriple item with
  | none => dsimp only; exact ⟨h1, h2⟩
  | some t =>
      obtain ⟨lraw, rel, rraw⟩ := t
      dsimp only
      cases hl : parseEntity lraw with
      | none => dsimp only; exact ⟨h1, h2⟩
      | some left =>
          cases hr : parseEntity rraw with
          | none => dsimp only; exact ⟨h1, h2⟩
          | some right =>
              dsimp only
              have hlid := parseEntity_shape lraw left hl
              have hrid := parseEntity_shape rraw right hr
              have s1n := insertIfAbsent_nodup acc.nodesById
                (makeNodeId left.type left.label) left h1
              have s1k := insertIfAbsent_keys acc.nodesById
                (makeNodeId left.type left.label) left h2 hlid.symm hlid
              have s2n := insertIfAbsent_nodup _
                (makeNodeId right.type right.label) right s1n
              have s2k := insertIfAbsent_keys _
                (makeNodeId right.type right.label) right s1k hrid.symm hrid
              exact ⟨s2n, s2k⟩

/-- A bullet item never alters or removes an existing node entry. -/
theorem processItem_mono (srcMap : List (Nat × Str)) (item : Str)
    (acc : FactsAcc) (kv : Str × KGNode) (h : kv ∈ acc.nodesById) :
    kv ∈ (processItem srcMap acc item).nodesById := by
  unfold processItem
  cases ht : findTriple item with
  | none => dsimp only; exact h
  | some t =>
      obtain ⟨lraw, rel, rraw⟩ := t
      dsimp only
      cases hl : parseEntity lraw with
      | none => dsimp only; exact h
      | some left =>
          cases hr : parseEntity rraw with
          | none => dsimp only; exact h
          | some right =>
              dsimp only
              split
              · split
                · exact h
                · exact List.mem_append_left _ h
              · split
                · exact List.mem_append_left _ h
                · exact List.mem_append_left _ (List.mem_append_left _ h)

/-- The bullet fold never alters or removes an existing node entry. -/
theorem foldProcess_mono (srcMap : List (Nat × Str)) (items : List Str)
    (acc : FactsAcc) (kv : Str × KGNode) (h : kv ∈ acc.nodesById) :
    kv ∈ (items.foldl (processItem srcMap) acc).nodesById := by
  induction items generalizing acc with
  | nil => exact h
  | cons i is ih =>
      exact ih _ (processItem_mono srcMap i acc kv h)

/-- The bullet fold preserves the node-map invariant. -/
theorem foldProcess_inv (srcMap : List (Nat × Str)) (items : List Str)
    (acc : FactsAcc)
    (h1 : (acc.nodesById.map Prod.fst).Nodup)
    (h2 : ∀ kv ∈ acc.nodesById,
      kv.1 = kv.2.id ∧ kv.2.id = makeNodeId kv.2.type kv.2.label) :
    ((items.foldl (processItem srcMap) acc).nodesById.map Prod.fst).Nodup ∧
    ∀ kv ∈ (items.foldl (processItem srcMap) acc).nodesById,
      kv.1 = kv.2.id ∧ kv.2.id = makeNodeId kv.2.type kv.2.label := by
  induction items generalizing acc with
  | nil => exact ⟨h1, h2⟩
  | cons i is ih =>
      obtain ⟨g1, g2⟩ := processItem_inv srcMap i acc h1 h2
      exact ih _ g1 g2

/-- Splitting never yields an empty chunk list. -/
theorem splitBul_ne_nil (s : Str) : splitBul s ≠ [] := by
  induction s with
  | nil => simp [splitBul]
  | cons c tl ih =>
      unfold splitBul
      split
      · simp
      · unfold splitBulCons
        cases h : splitBul tl with
        | nil => exact absurd h ih
        | cons a b => simp

/-- Splitting at a bullet distributes over concatenation. -/
theorem splitBul_append (a b : Str) :
    splitBul (a ++ '•' :: b) = splitBul a ++ splitBul b := by
  induction a with
  | nil => rfl
  | cons c a ih =>
      by_cases hc : c = '•'
      · subst hc
        simp [splitBul, ih]
      · simp only [List.cons_append, splitBul, if_neg hc, List.append_eq]
        rw [ih]
        obtain ⟨h, t, hht⟩ : ∃ h t, splitBul a = h :: t := by
          cases hsa : splitBul a with
          | nil => exact absurd hsa (splitBul_ne_nil a)
          | cons x y => exact ⟨x, y, rfl⟩
        rw [hht]
        rfl

/-- The trimmed, filtered item list distributes over a bullet join. -/
theorem splitBullets_append (a b : Str) :
    splitBullets (a ++ '•' :: b) = splitBullets a ++ splitBullets b := by
  unfold splitBullets
  rw [splitBul_append, List.map_append, List.filter_append]

/-- Claim C1 (amended — corrected): two occurrences of the same
`(type, label)` pair yield exactly one node in the `parseFactsBullets`
result (any two result nodes agreeing on type and label are the same
node), and the node produced from earlier bullets persists unchanged when
further bullets are appended — the first occurrence wins entirely, so
attributes supplied only by later occurrences are discarded. -/
theorem parseFactsBullets_firstSeen_merge (fb tail : Str)
    (srcMap : List (Nat × Str)) :
    (∀ n ∈ (parseFactsBullets (fb ++ '•' :: tail) srcMap).1,
     ∀ m ∈ (parseFactsBullets (fb ++ '•' :: tail) srcMap).1,
       n.type = m.type → n.label = m.label → n = m) ∧
    (∀ n ∈ (parseFactsBullets fb srcMap).1,
      n ∈ (parseFactsBullets (fb ++ '•' :: tail) srcMap).1) := by
  constructor
  · intro n hn m hm htype hlabel
    simp only [parseFactsBullets] at hn hm
    obtain ⟨kvn, hkvn, hkvn2⟩ := List.mem_map.mp hn
    obtain ⟨kvm, hkvm, hkvm2⟩ := List.mem_map.mp hm
    obtain ⟨g1, g2⟩ := foldProcess_inv srcMap
      (splitBullets (fb ++ '•' :: tail))
      { nodesById := [], edges := [], edgeCounter := 0 }
      (by simp) (by simp)
    obtain ⟨hn1, hn2⟩ := g2 kvn hkvn
    obtain ⟨hm1, hm2⟩ := g2 kvm hkvm
    have hkeys : kvn.1 = kvm.1 := by
      rw [hn1, hn2, hm1, hm2, hkvn2, hkvm2, htype, hlabel]
    have heq := List.inj_on_of_nodup_map g1 hkvn hkvm hkeys
    rw [← hkvn2, ← hkvm2, heq]
  · intro n hn
    simp only [parseFactsBullets] at hn ⊢
    obtain ⟨kv, hkv, hkv2⟩ := List.mem_map.mp hn
    refine List.mem_map.mpr ⟨kv, ?_, hkv2⟩
    rw [splitBullets_append, List.foldl_append]
    exact foldProcess_mono srcMap _ _ kv hkv

/-- Witness for C1: the `a:x` node from the first bullet persists in the
two-bullet parse. -/
theorem parseFactsBullets_firstSeen_merge_witness :
    mergeNodeA ∈ (parseFactsBullets mergeFb []).1 ∧
    mergeNodeA ∈ (parseFactsBullets (mergeFb ++ '•' :: mergeTail) []).1 := by
  have hm : mergeNodeA ∈ (parseFactsBullets mergeFb []).1 := by decide
  exact ⟨hm,
    (parseFactsBullets_firstSeen_merge mergeFb mergeTail []).2 mergeNodeA hm⟩

/-- Claim C3 (amended — corrected): the parser returns `none` exactly when
the trimmed preamble before a `Chat Response:` marker is absent or empty,
the extracted facts block is absent or empty, and the extracted sources
block is absent or empty.  (A bare marker with no content after it still
yields `none`, which refutes the claim as stated.) -/
theorem parseRetrievedFacts_none_iff (input : Str) :
    parseRetrievedFacts input = none ↔
      ((chatPreamble input).getD [] = [] ∧
       ((extractBlocks (chatContent input)).factsBlock).getD [] = [] ∧
       ((extractBlocks (chatContent input)).sourcesBlock).getD [] = []) := by
  by_cases hin : input = []
  · subst hin
    refine iff_of_true ?_ ?_
    · simp [parseRetrievedFacts]
    · decide
  · simp only [parseRetrievedFacts]
    rw [if_neg hin]
    cases hpre : chatPreamble input with
    | none =>
        cases hfb : (extractBlocks (chatContent input)).factsBlock with
        | none =>
            cases hsb : (extractBlocks (chatContent input)).sourcesBlock with
            | none =>
                split <;> simp_all [List.isEmpty_iff]
            | some s =>
                split <;> simp_all [List.isEmpty_iff]
        | some f =>
            cases hsb : (extractBlocks (chatContent input)).sourcesBlock with
            | none =>
                split <;> simp_all [List.isEmpty_iff]
            | some s =>
                split <;> simp_all [List.isEmpty_iff]
    | some p =>
        cases hfb : (extractBlocks (chatContent input)).factsBlock with
        | none =>
            cases hsb : (extractBlocks (chatContent input)).sourcesBlock with
            | none =>
                split <;> simp_all [List.isEmpty_iff]
            | some s =>
                split <;> simp_all [List.isEmpty_iff]
        | some f =>
            cases hsb : (extractBlocks (chatContent input)).sourcesBlock with
            | none =>
                split <;> simp_all [List.isEmpty_iff]
            | some s =>
                split <;> simp_all [List.isEmpty_iff]

/-- The hard clamp at the end of an iteration keeps every node inside the
circle of the given radius, for any square-root implementation that is
nonnegative and over-approximating on nonnegative inputs (as `Math.sqrt`
is, being exact). -/
theorem integrateStep_bound (P : MathPrims) (center radius sbs alpha : ℚ)
    (hsq0 : ∀ x : ℚ, 0 ≤ x → 0 ≤ P.sqrtQ x)
    (hsq : ∀ x : ℚ, 0 ≤ x → x ≤ P.sqrtQ x * P.sqrtQ x) (p : PosState) :
    ((integrateStep P center radius sbs alpha p).x - center) ^ 2 +
      ((integrateStep P center radius sbs alpha p).y - center) ^ 2 ≤
      radius ^ 2 := by
  unfold integrateStep
  dsimp only
  set dxC : ℚ := p.x + p.vx * (85/100) - center with hdxC
  set dyC : ℚ := p.y + p.vy * (85/100) - center with hdyC
  set X : ℚ := dxC * dxC + dyC * dyC with hX
  have hXnn : 0 ≤ X := by
    rw [hX]
    exact add_nonneg (mul_self_nonneg _) (mul_self_nonneg _)
  by_cases hz : P.sqrtQ X = 0
  · rw [if_pos hz]
    have hX0 : X = 0 := by
      have h1 := hsq X hXnn
      rw [hz] at h1
      linarith
    have hdx0 : dxC = 0 := by nlinarith [sq_nonneg dxC, sq_nonneg dyC]
    have hdy0 : dyC = 0 := by nlinarith [sq_nonneg dxC, sq_nonneg dyC]
    split
    · dsimp only
      rw [hdx0, hdy0]
      ring_nf
      positivity
    · dsimp only
      have hgoal : (p.x + p.vx * (85/100) - center) ^ 2 +
          (p.y + p.vy * (85/100) - center) ^ 2 = X := by
        rw [hX, hdxC, hdyC]
        ring
      rw [hgoal, hX0]
      positivity
  · rw [if_neg hz]
    have hr0 : 0 ≤ P.sqrtQ X := hsq0 X hXnn
    have hrpos : 0 < P.sqrtQ X := lt_of_le_of_ne hr0 (Ne.symm hz)
    have hXr : X ≤ P.sqrtQ X * P.sqrtQ X := hsq X hXnn
    split
    · rename_i hclamp
      dsimp only
      have key : (center + dxC * (radius / P.sqrtQ X) - center) ^ 2 +
          (center + dyC * (radius / P.sqrtQ X) - center) ^ 2 =
          (radius / P.sqrtQ X) ^ 2 * X := by
        rw [hX]
        ring
      rw [key]
      have h1 : (radius / P.sqrtQ X) ^ 2 * X ≤
          (radius / P.sqrtQ X) ^ 2 * (P.sqrtQ X * P.sqrtQ X) :=
        mul_le_mul_of_nonneg_left hXr (sq_nonneg _)
      have h2 : (radius / P.sqrtQ X) ^ 2 * (P.sqrtQ X * P.sqrtQ X) =
          radius ^ 2 := by
        field_simp
        left
        ring
      linarith
    · rename_i hnoclamp
      dsimp only
      have hle : P.sqrtQ X ≤ radius := le_of_not_lt hnoclamp
      have hgoal : (p.x + p.vx * (85/100) - center) ^ 2 +
          (p.y + p.vy * (85/100) - center) ^ 2 = X := by
        rw [hX, hdxC, hdyC]
        ring
      rw [hgoal]
      nlinarith
/-- Every position output by one simulation iteration is inside the
circle. -/
theorem simIter_bound (P : MathPrims) (edges : List KGEdge)
    (canvasSize nodeW center radius sbs : ℚ) (iterations iter : ℕ)
    (ps : List PosState)
    (hsq0 : ∀ x : ℚ, 0 ≤ x → 0 ≤ P.sqrtQ x)
    (hsq : ∀ x : ℚ, 0 ≤ x → x ≤ P.sqrtQ x * P.sqrtQ x) (q : PosState)
    (hq : q ∈ simIter P edges canvasSize nodeW center radius sbs iterations
      iter ps) :
    (q.x - center) ^ 2 + (q.y - center) ^ 2 ≤ radius ^ 2 := by
  simp only [simIter] at hq
  obtain ⟨p0, -, hp0⟩ := List.mem_map.mp hq
  rw [← hp0]
  exact integrateStep_bound P center radius sbs _ hsq0 hsq p0

/-- For at least one iteration, every position returned by
`simulateForceLayout` is inside the circular boundary of the supplied
dimensions. -/
theorem simulateForceLayout_mem_bound (P : MathPrims) (nodes : List KGNode)
    (edges : List KGEdge) (dims : Dimensions) (iterations : ℕ)
    (hit : 1 ≤ iterations)
    (hsq0 : ∀ x : ℚ, 0 ≤ x → 0 ≤ P.sqrtQ x)
    (hsq : ∀ x : ℚ, 0 ≤ x → x ≤ P.sqrtQ x * P.sqrtQ x) (q : PosState)
    (hq : q ∈ simulateForceLayout P nodes edges dims iterations) :
    (q.x - dims.canvasSize / 2) ^ 2 + (q.y - dims.canvasSize / 2) ^ 2 ≤
      (dims.canvasSize / 2 - dims.nodeW * 2) ^ 2 := by
  obtain ⟨k, rfl⟩ : ∃ k, iterations = k + 1 := ⟨iterations - 1, by omega⟩
  simp only [simulateForceLayout] at hq
  rw [List.range_succ, List.foldl_append] at hq
  simp only [List.foldl_cons, List.foldl_nil] at hq
  exact simIter_bound P edges dims.canvasSize dims.nodeW _ _ _ (k + 1) k _
    hsq0 hsq q hq

/-- Claim C5 (confirmed): for every node and edge set, every position
returned by `simulateForceLayout` (with the component's
`calculateDimensions` sizing and at least one iteration) lies inside the
circular canvas boundary: its squared distance from the canvas centre is
at most the square of the clamp radius `canvasSize/2 - 2*nodeW`. -/
theorem simulateForceLayout_within_circle (P : MathPrims)
    (hsq0 : ∀ x : ℚ, 0 ≤ x → 0 ≤ P.sqrtQ x)
    (hsq : ∀ x : ℚ, 0 ≤ x → x ≤ P.sqrtQ x * P.sqrtQ x)
    (nodes : List KGNode) (edges : List KGEdge) (iterations : ℕ)
    (hit : 1 ≤ iterations) (q : PosState)
    (hq : q ∈ simulateForceLayout P nodes edges
      (calculateDimensions P.sqrtQ nodes.length) iterations) :
    (q.x - (calculateDimensions P.sqrtQ nodes.length).canvasSize / 2) ^ 2 +
      (q.y - (calculateDimensions P.sqrtQ nodes.length).canvasSize / 2) ^ 2 ≤
      ((calculateDimensions P.sqrtQ nodes.length).canvasSize / 2 -
        (calculateDimensions P.sqrtQ nodes.length).nodeW * 2) ^ 2 :=
  simulateForceLayout_mem_bound P nodes edges _ iterations hit hsq0 hsq q hq

/-- Witness for C5: a concrete one-node, one-iteration run with the
AM-GM square-root stand-in stays inside the circle. -/
theorem simulateForceLayout_within_circle_witness :
    (∀ x : ℚ, 0 ≤ x → 0 ≤ wPrims.sqrtQ x) ∧
    (∀ x : ℚ, 0 ≤ x → x ≤ wPrims.sqrtQ x * wPrims.sqrtQ x) ∧
    (1 : ℕ) ≤ 1 ∧
    wPos ∈ wLayout ∧
    (wPos.x - (calculateDimensions wPrims.sqrtQ
        ([wNode] : List KGNode).length).canvasSize / 2) ^ 2 +
      (wPos.y - (calculateDimensions wPrims.sqrtQ
        ([wNode] : List KGNode).length).canvasSize / 2) ^ 2 ≤
      ((calculateDimensions wPrims.sqrtQ
        ([wNode] : List KGNode).length).canvasSize / 2 -
        (calculateDimensions wPrims.sqrtQ
          ([wNode] : List KGNode).length).nodeW * 2) ^ 2 := by
  have hsq0 : ∀ x : ℚ, 0 ≤ x → 0 ≤ wPrims.sqrtQ x := by
    intro x hx
    simp only [wPrims]
    linarith
  have hsq : ∀ x : ℚ, 0 ≤ x → x ≤ wPrims.sqrtQ x * wPrims.sqrtQ x := by
    intro x hx
    simp only [wPrims]
    nlinarith [sq_nonneg (x - 1)]
  have hmem : wPos ∈ wLayout := by
    rw [show wLayout = [wPos] from rfl]
    exact List.mem_singleton.mpr rfl
  exact ⟨hsq0, hsq, le_refl 1, hmem,
    simulateForceLayout_within_circle wPrims hsq0 hsq [wNode] [] 1 (le_refl 1)
      wPos hmem⟩


/-- A case-insensitive prefix is no longer than the string. -/
theorem isPrefixOfCI_length (pat u : Str) (h : isPrefixOfCI pat u = true) :
    pat.length ≤ u.length := by
  induction pat generalizing u with
  | nil => simp
  | cons a as ih =>
      cases u with
      | nil => simp [isPrefixOfCI] at h
      | cons b bs =>
          simp only [isPrefixOfCI, Bool.and_eq_true] at h
          simp only [List.length_cons, Nat.succ_le_succ_iff]
          exact ih bs h.2

/-- A case-insensitive prefix of `u` is one of `u ++ v`. -/
theorem isPrefixOfCI_append (pat u v : Str)
    (h : isPrefixOfCI pat u = true) : isPrefixOfCI pat (u ++ v) = true := by
  induction pat generalizing u with
  | nil => simp [isPrefixOfCI]
  | cons a as ih =>
      cases u with
      | nil => simp [isPrefixOfCI] at h
      | cons b bs =>
          simp only [isPrefixOfCI, Bool.and_eq_true] at h
          simp only [List.cons_append, isPrefixOfCI, Bool.and_eq_true]
          exact ⟨h.1, ih bs h.2⟩

/-- No occurrence is found exactly when the pattern is a case-insensitive
prefix at no position. -/
theorem findSubCI_none_iff (pat s : Str) :
    findSubCI pat s = none ↔ ∀ i, isPrefixOfCI pat (s.drop i) = false := by
  induction s with
  | nil =>
      cases pat with
      | nil => simp [findSubCI, isPrefixOfCI]
      | cons a as =>
          simp only [findSubCI, List.isEmpty_iff]
          constructor
          · intro _ i
            simp [isPrefixOfCI]
          · intro _
            simp
  | cons c tl ih =>
      simp only [findSubCI]
      by_cases hp : isPrefixOfCI pat (c :: tl) = true
      · rw [if_pos hp]
        constructor
        · intro h
          exact absurd h (by simp)
        · intro h
          have := h 0
          simp only [List.drop_zero] at this
          rw [hp] at this
          exact absurd this (by simp)
      · rw [if_neg hp]
        constructor
        · intro h i
          have htl : findSubCI pat tl = none := by
            cases hf : findSubCI pat tl
            · rfl
            · rw [hf] at h
              exact absurd h (by simp)
          cases i with
          | zero =>
              simp only [List.drop_zero]
              cases hq : isPrefixOfCI pat (c :: tl)
              · rfl
              · exact absurd hq hp
          | succ j =>
              simp only [List.drop_succ_cons]
              exact (ih.mp htl) j
        · intro h
          have htl : findSubCI pat tl = none := by
            refine ih.mpr (fun j => ?_)
            have := h (j + 1)
            simpa using this
          rw [htl]
          rfl

/-- A found index carries an occurrence. -/
theorem findSubCI_some_prefix (pat s : Str) (p : ℕ)
    (h : findSubCI pat s = some p) : isPrefixOfCI pat (s.drop p) = true := by
  induction s generalizing p with
  | nil =>
      cases pat with
      | nil =>
          simp only [findSubCI, List.isEmpty_nil, if_true, Option.some.injEq] at h
          subst h
          simp [isPrefixOfCI]
      | cons a as => simp [findSubCI] at h
  | cons c tl ih =>
      simp only [findSubCI] at h
      by_cases hp : isPrefixOfCI pat (c :: tl) = true
      · rw [if_pos hp] at h
        rw [Option.some.injEq] at h
        subst h
        simpa using hp
      · rw [if_neg hp] at h
        cases hf : findSubCI pat tl with
        | none => rw [hf] at h; exact absurd h (by simp)
        | some q =>
            rw [hf] at h
            simp only [Option.map_some', Option.some.injEq] at h
            subst h
            simp only [List.drop_succ_cons]
            exact ih q hf

/-- The found index is the first occurrence. -/
theorem findSubCI_min (pat s : Str) (p : ℕ)
    (h : findSubCI pat s = some p) :
    ∀ q < p, isPrefixOfCI pat (s.drop q) = false := by
  induction s generalizing p with
  | nil =>
      cases pat with
      | nil =>
          simp only [findSubCI, List.isEmpty_nil, if_true, Option.some.injEq] at h
          subst h
          omega
      | cons a as => simp [findSubCI] at h
  | cons c tl ih =>
      simp only [findSubCI] at h
      by_cases hp : isPrefixOfCI pat (c :: tl) = true
      · rw [if_pos hp, Option.some.injEq] at h
        subst h
        omega
      · rw [if_neg hp] at h
        cases hf : findSubCI pat tl with
        | none => rw [hf] at h; exact absurd h (by simp)
        | some q0 =>
            rw [hf] at h
            simp only [Option.map_some', Option.some.injEq] at h
            subst h
            intro q hq
            cases q with
            | zero =>
                simp only [List.drop_zero]
                cases hq2 : isPrefixOfCI pat (c :: tl)
                · rfl
                · exact absurd hq2 hp
            | succ j =>
                simp only [List.drop_succ_cons]
                exact ih q0 hf j (by omega)


/-- Case-insensitive prefix tests transfer along list prefixes. -/
theorem isPrefixOfCI_of_prefix (pat u w : Str) (hp : u <+: w)
    (h : isPrefixOfCI pat u = true) : isPrefixOfCI pat w = true := by
  obtain ⟨t, rfl⟩ := hp
  exact isPrefixOfCI_append pat u t h

/-- Absence of an occurrence transfers to any infix. -/
theorem findSubCI_none_of_infix (pat t s : Str) (hinf : t <:+: s)
    (h : findSubCI pat s = none) : findSubCI pat t = none := by
  rw [findSubCI_none_iff] at h ⊢
  intro i
  cases hq : isPrefixOfCI pat (t.drop i)
  · rfl
  · exfalso
    obtain ⟨u, v, rfl⟩ := hinf
    have hdrop : (u ++ (t ++ v)).drop (u.length + i) = t.drop i ++ v.drop (i - t.length) := by
      rw [List.drop_append_eq_append_drop]
      have h1 : u.drop (u.length + i) = [] := by
        apply List.drop_eq_nil_of_le
        omega
      rw [h1, List.drop_append_eq_append_drop]
      simp
    have happ := isPrefixOfCI_append pat (t.drop i) (v.drop (i - t.length)) hq
    have hcontra := h (u.length + i)
    rw [List.append_assoc, hdrop] at hcontra
    rw [happ] at hcontra
    exact absurd hcontra (by simp)

/-- Trimming trailing whitespace yields a prefix. -/
theorem trimEndStr_prefixOf (s : Str) : trimEndStr s <+: s := by
  unfold trimEndStr
  have hsuf : s.reverse.dropWhile isWsChar <:+ s.reverse :=
    List.dropWhile_suffix _
  have := List.reverse_prefix.mpr hsuf
  simpa using this

/-- The last-newline index is bounded by the search position. -/
theorem lastIdxNlLe_le (input : Str) (pos i : ℕ)
    (h : lastIdxNlLe input pos = some i) : i ≤ pos := by
  simp only [lastIdxNlLe] at h
  cases hf : (input.take (pos + 1)).reverse.findIdx? (fun c => c = '\n') with
  | none => rw [hf] at h; exact absurd h (by simp)
  | some j =>
      rw [hf] at h
      simp only [Option.some.injEq] at h
      have hlen : (input.take (pos + 1)).length ≤ pos + 1 := List.length_take_le _ _
      omega


/-- Occurrences at an index transfer along list prefixes. -/
theorem isPrefixOfCI_drop_of_prefix (pat u s : Str) (q : ℕ) (hp : u <+: s)
    (h : isPrefixOfCI pat (u.drop q) = true) :
    isPrefixOfCI pat (s.drop q) = true := by
  obtain ⟨t, rfl⟩ := hp
  rw [List.drop_append_eq_append_drop]
  exact isPrefixOfCI_append _ _ _ h

/-- No newline is found at position 0 when the head is not a newline. -/
theorem lastIdxNlLe_zero_of_head (input : Str) (c : Char)
    (hh : input.head? = some c) (hc : ¬ c = '\n') :
    lastIdxNlLe input 0 = none := by
  cases input with
  | nil => simp at hh
  | cons a tl =>
      simp only [List.head?_cons, Option.some.injEq] at hh
      have hcn : ¬ a = '\n' := by
        rw [hh]
        exact hc
      simp only [lastIdxNlLe]
      rw [show List.take (0 + 1) (a :: tl) = [a] from by simp]
      rw [show ([a] : Str).reverse = [a] from by simp]
      rw [show List.findIdx? (fun x => decide (x = '\n')) [a] = none from by
        simp [List.findIdx?_cons, hcn]]

/-- The trimmed prefix cut before the first facts-label occurrence holds no
facts label. -/
theorem noFacts_take (s : Str) (p start : ℕ)
    (hf : findSubCI FACTS_LABEL s = some p) (hstart : start ≤ p) :
    findSubCI FACTS_LABEL (trimEndStr (s.take start)) = none := by
  cases hq : findSubCI FACTS_LABEL (trimEndStr (s.take start)) with
  | none => rfl
  | some q =>
      exfalso
      have hpre := findSubCI_some_prefix _ _ _ hq
      have hlen := isPrefixOfCI_length _ _ hpre
      have hct : trimEndStr (s.take start) <+: s :=
        (trimEndStr_prefixOf _).trans (List.take_prefix _ _)
      have htrans := isPrefixOfCI_drop_of_prefix _ _ _ q hct hpre
      have hctlen : (trimEndStr (s.take start)).length ≤ start := by
        have h1 := (trimEndStr_prefixOf (s.take start)).length_le
        have h2 : (s.take start).length ≤ start := List.length_take_le _ _
        omega
      have hq_lt : q < p := by
        rw [List.length_drop] at hlen
        have h16 : FACTS_LABEL.length = 16 := rfl
        omega
      have hmin := findSubCI_min _ _ _ hf q hq_lt
      rw [htrans] at hmin
      exact absurd hmin (by simp)

/-- Key lemma for C8: the clean text produced by `extractBlocks` never
contains a `Retrieved Facts:` occurrence (case-insensitively). -/
theorem cleanText_noFacts (s : Str) :
    findSubCI FACTS_LABEL (extractBlocks s).cleanText = none := by
  cases hf : findSubCI FACTS_LABEL s with
  | none =>
      simp only [extractBlocks]
      rw [hf]
      dsimp only
      cases hs : findSubCI SOURCES_LABEL s with
      | none => exact hf
      | some q0 =>
          dsimp only
          split
          · cases hst : sourcesTailFrom s with
            | some i =>
                refine findSubCI_none_of_infix _ _ _ ?_ hf
                exact ((trimEndStr_prefixOf _).trans
                  (List.take_prefix _ _)).isInfix
            | none =>
                refine findSubCI_none_of_infix _ _ _ ?_ hf
                exact (trimEndStr_prefixOf _).isInfix
          · exact hf
  | some p =>
      simp only [extractBlocks]
      rw [hf]
      dsimp only
      cases hl : lastIdxNlLe s (p - 1) with
      | none => exact noFacts_take s p 0 hf (by omega)
      | some i =>
          have hi := lastIdxNlLe_le s (p - 1) i hl
          by_cases hp0 : p = 0
          · exfalso
            subst hp0
            have hpre0 := findSubCI_some_prefix FACTS_LABEL s 0 hf
            rw [List.drop_zero] at hpre0
            cases s with
            | nil =>
                rw [show FACTS_LABEL = 'R' :: ("etrieved Facts:").toList
                  from rfl] at hpre0
                simp [isPrefixOfCI] at hpre0
            | cons c tl =>
                rw [show FACTS_LABEL = 'R' :: ("etrieved Facts:").toList
                  from rfl] at hpre0
                simp only [isPrefixOfCI, Bool.and_eq_true,
                  decide_eq_true_eq] at hpre0
                have hc1 : lowerChar c = 'r' := by
                  have hR : lowerChar 'R' = 'r' := by decide
                  rw [hR] at hpre0
                  exact hpre0.1.symm
                have hcn : ¬ c = '\n' := by
                  intro hh
                  subst hh
                  rw [show lowerChar '\n' = '\n' from by decide] at hc1
                  exact absurd hc1 (by decide)
                have hz := lastIdxNlLe_zero_of_head (c :: tl) c rfl hcn
                rw [hz] at hl
                exact absurd hl (by simp)
          · exact noFacts_take s p (i + 1) hf (by omega)

/-- The working text after the `Chat Response:` marker is an infix. -/
theorem chatContent_infixOf (input : Str) : chatContent input <:+: input := by
  unfold chatContent
  cases findChatResp input with
  | none => exact List.infix_rfl
  | some pr => exact (List.drop_suffix _ _).isInfix

/-- Without a facts-label occurrence there is no facts block. -/
theorem extract_factsBlock_none (s : Str)
    (h : findSubCI FACTS_LABEL s = none) :
    (extractBlocks s).factsBlock = none := by
  simp only [extractBlocks]
  rw [h]

/-- Field projections of a successful parse: the clean text comes from
`extractBlocks`, and without a facts block the node and edge lists are
empty. -/
theorem parse_some_fields (input : Str) (r : ParsedFacts)
    (h : parseRetrievedFacts input = some r) :
    r.cleanText = (extractBlocks (chatContent input)).cleanText ∧
    ((extractBlocks (chatContent input)).factsBlock = none →
      r.nodes = [] ∧ r.edges = []) := by
  simp only [parseRetrievedFacts] at h
  by_cases hin : input = []
  · rw [if_pos hin] at h
    exact absurd h (by simp)
  · rw [if_neg hin] at h
    split at h
    · exact absurd h (by simp)
    · rw [Option.some.injEq] at h
      subst h
      refine ⟨rfl, fun hfb => ?_⟩
      rw [hfb]
      exact ⟨rfl, rfl⟩

/-- Claim C8 (amended — corrected): re-parsing the clean text of any
successful parse yields no further nodes and no further edges (no
`Retrieved Facts:` marker survives in the clean text); a `Sources:` marker
may however remain, so the "no markers remain" reading of the claim is
false. -/
theorem parse_cleanText_idempotent (input : Str) (r r' : ParsedFacts)
    (h : parseRetrievedFacts input = some r)
    (h2 : parseRetrievedFacts r.cleanText = some r') :
    r'.nodes = [] ∧ r'.edges = [] := by
  obtain ⟨hct, -⟩ := parse_some_fields input r h
  have hnone : findSubCI FACTS_LABEL r.cleanText = none := by
    rw [hct]
    exact cleanText_noFacts (chatContent input)
  have hnone2 : findSubCI FACTS_LABEL (chatContent r.cleanText) = none :=
    findSubCI_none_of_infix _ _ _ (chatContent_infixOf _) hnone
  obtain ⟨-, hres⟩ := parse_some_fields r.cleanText r' h2
  exact hres (extract_factsBlock_none _ hnone2)

/-- Witness for C8: a concrete successful parse whose clean text re-parses
to a non-null result with no nodes and no edges. -/
theorem parse_cleanText_idempotent_witness :
    parseRetrievedFacts sourcesFirstInput = some sourcesFirstParsed ∧
    parseRetrievedFacts sourcesFirstParsed.cleanText =
      some sourcesFirstReparsed ∧
    sourcesFirstReparsed.nodes = [] ∧ sourcesFirstReparsed.edges = [] := by
  have h1 : parseRetrievedFacts sourcesFirstInput =
      some sourcesFirstParsed := by decide
  have h2 : parseRetrievedFacts sourcesFirstParsed.cleanText =
      some sourcesFirstReparsed := by decide
  obtain ⟨hn, he⟩ := parse_cleanText_idempotent sourcesFirstInput
    sourcesFirstParsed sourcesFirstReparsed h1 h2
  exact ⟨h1, h2, hn, he⟩

end StoryShift
